import Mathlib

/-!
# Static map (`cmap.c`): a shallow embedding

The C module keeps a header `map_t` followed by three parallel regions
(keys, values and one usage byte per slot).  A key or a value of
`key_size` / `val_size` bytes is one element of type `K` / `V` here, and a
`memcpy` of such a block into slot `idx` is `List.set` at `idx`.  Functions
that mutate the map through the pointer return the new map.

`unsigned` is taken to be 32 bits wide: the arithmetic on `count` is done
modulo `UINT_MOD`.
-/

namespace CMap

/-- Usage byte of a free slot (`#define MAP_ENTRY_FREE (0)`). -/
def MAP_ENTRY_FREE : Nat := 0

/-- Usage byte of a used slot (`#define MAP_ENTRY_USED (1)`). -/
def MAP_ENTRY_USED : Nat := 1

/-- Size of one usage entry (`#define USAGE_SINGLE_ENTRY_SIZE sizeof(byte_t)`). -/
def USAGE_SINGLE_ENTRY_SIZE : Nat := 1

/-- Number of values of the C type `unsigned`. -/
def UINT_MOD : Nat := 2 ^ 32

/-- The header `struct map_s` of `cmap.h` together with the three regions that
`DECLARE_STATIC_MAP` lays out behind it: `keys`, `values` and `usage`. -/
structure map_t (K V : Type) where
  compare : K → K → Bool
  key_size : Nat
  val_size : Nat
  count : Nat
  size : Nat
  keys : List K
  values : List V
  usage : List Nat

set_option linter.unusedSectionVars false

variable {K V : Type} [Inhabited K] [Inhabited V]

/-- Key stored in slot `idx` (`KEYS_ITER(map, KEYS(map), idx)`). -/
def KEYS_ITER (m : map_t K V) (idx : Nat) : K := m.keys.getD idx default

/-- Value stored in slot `idx` (`VALS_ITER(map, VALUES(map), idx)`). -/
def VALS_ITER (m : map_t K V) (idx : Nat) : V := m.values.getD idx default

/-- Usage byte of slot `idx` (`*USAGE_ITER(map, USAGE(map), idx)`).  An index
outside the region reads as `MAP_ENTRY_FREE`; no such index is read in a map
whose regions have `size` entries and whose `count` is at most `size`. -/
def USAGE_ITER (m : map_t K V) (idx : Nat) : Nat := m.usage.getD idx MAP_ENTRY_FREE

/-- The macro `IS_ENTRY_FREE(map, usage_ptr, idx)`. -/
def IS_ENTRY_FREE (m : map_t K V) (idx : Nat) : Bool := USAGE_ITER m idx == MAP_ENTRY_FREE

/-- The `for` loop of `map_find` with `n` iterations left and loop variable
`itr`: a free slot is skipped (`continue`), a used slot whose key compares
equal ends the loop with `*idx = itr`. -/
def map_find_loop (m : map_t K V) (key : K) : Nat → Nat → Option Nat
  | 0, _ => none
  | n + 1, itr =>
    if IS_ENTRY_FREE m itr then map_find_loop m key n (itr + 1)
    else if m.compare key (KEYS_ITER m itr) then some itr
    else map_find_loop m key n (itr + 1)

/-- The function `map_find`: the loop runs for `itr = 0 .. map->count - 1`.
`some idx` is the result `true` with `*idx` set, `none` is `false`. -/
def map_find (m : map_t K V) (key : K) : Option Nat := map_find_loop m key m.count 0

/-- The `for` loop of `map_alloc_new_entry` with `n` iterations left. -/
def map_alloc_loop (m : map_t K V) : Nat → Nat → Option Nat
  | 0, _ => none
  | n + 1, idx =>
    if IS_ENTRY_FREE m idx then some idx
    else map_alloc_loop m n (idx + 1)

/-- The function `map_alloc_new_entry`: the loop runs for
`idx = 0 .. map->size - 1`. -/
def map_alloc_new_entry (m : map_t K V) : Option Nat := map_alloc_loop m m.size 0

/-- The function `map_add`: the returned boolean and the map after the call. -/
def map_add (m : map_t K V) (key : K) (val : V) : Bool × map_t K V :=
  match map_find m key with
  | some _ => (false, m)
  | none =>
    match map_alloc_new_entry m with
    | none => (false, m)
    | some idx =>
      (true, { m with
        keys := m.keys.set idx key
        values := m.values.set idx val
        usage := m.usage.set idx MAP_ENTRY_USED
        count := (m.count + 1) % UINT_MOD })

/-- The function `map_get`: `some v` is the result `true` with `v` copied to
`*val`, `none` is the result `false` (`*val` is not written). -/
def map_get (m : map_t K V) (key : K) : Option V :=
  match map_find m key with
  | some idx => some (VALS_ITER m idx)
  | none => none

/-- The function `map_size`. -/
def map_size (m : map_t K V) : Nat := m.size

/-- The function `map_len`. -/
def map_len (m : map_t K V) : Nat := m.count

/-- The function `map_is_empty`. -/
def map_is_empty (m : map_t K V) : Bool := map_len m == 0

/-- The call `memset(region, c, n)` on a region of bytes: the first `n` bytes
become `c`.  Bytes behind the end of the region are not part of it. -/
def memset (region : List Nat) (c n : Nat) : List Nat :=
  List.replicate (min n region.length) c ++ region.drop n

/-- The function `map_erase`.  The `memset` covers
`size + USAGE_SINGLE_ENTRY_SIZE` bytes from the start of the usage region, one
more than the `size` usage bytes that `DECLARE_STATIC_MAP` lays out. -/
def map_erase (m : map_t K V) : map_t K V :=
  { m with
    usage := memset m.usage MAP_ENTRY_FREE (m.size + USAGE_SINGLE_ENTRY_SIZE)
    count := 0 }

/-- The function `map_delete`. -/
def map_delete (m : map_t K V) (key : K) : map_t K V :=
  match map_find m key with
  | some idx =>
    { m with
      usage := m.usage.set idx MAP_ENTRY_FREE
      count := (m.count + UINT_MOD - 1) % UINT_MOD }
  | none => m

/-- The function `map_update`. -/
def map_update (m : map_t K V) (key : K) (new_value : V) (create_if_absent : Bool) :
    Bool × map_t K V :=
  match map_find m key with
  | some idx => (true, { m with values := m.values.set idx new_value })
  | none => if create_if_absent then map_add m key new_value else (false, m)

/-! ## The data-model invariants and the reachable states -/

/-- Number of slots whose usage byte is not `MAP_ENTRY_FREE`. -/
def used_count (m : map_t K V) : Nat := m.usage.countP (fun u => u != MAP_ENTRY_FREE)

/-- The three regions behind the header have `size` entries each, as laid out
by `DECLARE_STATIC_MAP`. -/
def Storage (m : map_t K V) : Prop :=
  m.keys.length = m.size ∧ m.values.length = m.size ∧ m.usage.length = m.size

/-- A map state of the data model: the regions have `size` entries, `size` is a
value of type `unsigned`, and `count` is the number of used slots. -/
def Valid (m : map_t K V) : Prop :=
  Storage m ∧ m.size < UINT_MOD ∧ m.count = used_count m

/-- An empty map as `DECLARE_STATIC_MAP` leaves it: `count` is 0 and every usage
byte is free.  The contents of the key and value regions are left open. -/
def Empty (m : map_t K V) : Prop :=
  Storage m ∧ m.size < UINT_MOD ∧ m.count = 0 ∧
    m.usage = List.replicate m.size MAP_ENTRY_FREE

/-- States reachable from an empty map by the mutating functions of the API. -/
inductive Reachable : map_t K V → Prop
  | empty (m : map_t K V) : Empty m → Reachable m
  | add (m : map_t K V) (key : K) (val : V) : Reachable m → Reachable (map_add m key val).2
  | update (m : map_t K V) (key : K) (val : V) (c : Bool) :
      Reachable m → Reachable (map_update m key val c).2
  | delete (m : map_t K V) (key : K) : Reachable m → Reachable (map_delete m key)
  | erase (m : map_t K V) : Reachable m → Reachable (map_erase m)

/-- Slot `i` is one of the `size` slots, is marked used, and its key is equal to
`key` under the comparison callback (called as `compare(key, slot_key)`). -/
def Holds (m : map_t K V) (i : Nat) (key : K) : Prop :=
  i < m.size ∧ IS_ENTRY_FREE m i = false ∧ m.compare key (KEYS_ITER m i) = true

/-- The comparison callback is reflexive. -/
def CompareRefl (m : map_t K V) : Prop := ∀ a, m.compare a a = true

/-- The comparison callback is an equivalence relation. -/
def CompareEquiv (m : map_t K V) : Prop :=
  (∀ a, m.compare a a = true) ∧
  (∀ a b, m.compare a b = true → m.compare b a = true) ∧
  (∀ a b c, m.compare a b = true → m.compare b c = true → m.compare a c = true)

/-- First index `j` with `p j` among `i, i + 1, .., i + n - 1`. -/
def first_from (p : Nat → Bool) : Nat → Nat → Option Nat
  | 0, _ => none
  | n + 1, i => if p i then some i else first_from p n (i + 1)

/-! ## The demonstration maps of `example.c` -/

/-- The macro `DECLARE_STATIC_MAP`: a zero-initialised static object with the
header fields set. -/
def DECLARE_STATIC_MAP (key_size val_size static_size : Nat) (compare_func : K → K → Bool) :
    map_t K V :=
  { compare := compare_func
    key_size := key_size
    val_size := val_size
    count := 0
    size := static_size
    keys := List.replicate static_size default
    values := List.replicate static_size default
    usage := List.replicate static_size 0 }

/-- The callback `compare_chars` of `example.c`; a `char` is its code. -/
def compare_chars (c1 c2 : Nat) : Bool := c1 == c2

/-- The object `test_map` of `example.c`:
`DECLARE_STATIC_MAP(char, unsigned, test_map, 20, compare_chars)`. -/
def test_map : map_t Nat Nat := DECLARE_STATIC_MAP 1 4 20 compare_chars

/-- The map `test_map` after `map_add` of the keys `a`, `b`, `c` (codes 97, 98,
99) with the values 0, 1, 2. -/
def test_map_abc : map_t Nat Nat :=
  (map_add (map_add (map_add test_map 97 0).2 98 1).2 99 2).2

/-- The map `test_map_abc` after `map_delete` of the key `a`. -/
def test_map_bc : map_t Nat Nat := map_delete test_map_abc 97

/-- The map `test_map_bc` after `map_add` of the key `c` with the value 3. -/
def test_map_cbc : map_t Nat Nat := (map_add test_map_bc 99 3).2

/-- A map of capacity 2 declared like `test_map`. -/
def small_map : map_t Nat Nat := DECLARE_STATIC_MAP 1 4 2 compare_chars

/-- The map `small_map` after `map_add` of the keys `a` and `b`. -/
def small_map_ab : map_t Nat Nat := (map_add (map_add small_map 97 0).2 98 1).2

/-- States reachable from an empty map by `map_add`, `map_update` and
`map_erase` only (no `map_delete`). -/
inductive ReachableNoDelete : map_t K V → Prop
  | empty (m : map_t K V) : Empty m → ReachableNoDelete m
  | add (m : map_t K V) (key : K) (val : V) :
      ReachableNoDelete m → ReachableNoDelete (map_add m key val).2
  | update (m : map_t K V) (key : K) (val : V) (c : Bool) :
      ReachableNoDelete m → ReachableNoDelete (map_update m key val c).2
  | erase (m : map_t K V) : ReachableNoDelete m → ReachableNoDelete (map_erase m)

/-- The used slots are exactly the slots with an index below `count`. -/
def Packed (m : map_t K V) : Prop := ∀ i, IS_ENTRY_FREE m i = false ↔ i < m.count

/-- The keys of two different slots below `count` are not equal under the
comparison callback. -/
def Distinct (m : map_t K V) : Prop :=
  ∀ i j, i < m.count → j < m.count → i ≠ j →
    m.compare (KEYS_ITER m i) (KEYS_ITER m j) = false

/-- The type `str_t` of `example.c`: `struct str_s` with `char bytes[8]`. -/
structure str_t where
  bytes : List Nat
deriving DecidableEq

/-- A zero-initialised `str_t`. -/
instance : Inhabited str_t := ⟨⟨List.replicate 8 0⟩⟩

/-- The C string that starts at the first byte: the bytes before the first
NUL. -/
def c_string (bytes : List Nat) : List Nat := bytes.takeWhile (fun b => b != 0)

/-- The callback `compare_strings` of `example.c`: `0 == strcmp(a, b)`, which
holds exactly when the two C strings are the same. -/
def compare_strings (str1 str2 : str_t) : Bool := c_string str1.bytes == c_string str2.bytes

/-- The keys `str1` .. `str5` of `main` in `example.c`, and two further keys. -/
def str_key (digit : Nat) : str_t := ⟨[115, 116, 114, 48 + digit, 0, 0, 0, 0]⟩

/-- The loop `for (i = 0; i < 5; i++) map_add(map, &keys[i], &i)` of `main`. -/
def add_five (m : map_t K Nat) (k0 k1 k2 k3 k4 : K) : map_t K Nat :=
  (map_add (map_add (map_add (map_add (map_add m k0 0).2 k1 1).2 k2 2).2 k3 3).2 k4 4).2

/-! ## Text output -/

/-- The call `sprintf(out, "%u", n)`: the decimal digits of `n`. -/
def fmt_u (n : Nat) : String := Nat.repr n

/-- The call `sprintf(out, "%.2x", b)`: the lowercase hexadecimal digits of
`b`, padded with zeros on the left to at least two digits. -/
def fmt_02x (b : Nat) : String :=
  String.mk (List.replicate (2 - (Nat.toDigits 16 b).length) '0' ++ Nat.toDigits 16 b)

/-- The `for` loop of `hexdump_str` with `n` iterations left, loop variable `i`
and the text written so far. -/
def hexdump_str_loop (bytes : List Nat) : Nat → Nat → String → String
  | 0, _, out => out
  | n + 1, i, out => hexdump_str_loop bytes n (i + 1) (out ++ fmt_02x (bytes.getD i 0))

/-- The function `hexdump_str`: the text in `out` after the `nbytes` bytes were
appended in hexadecimal. -/
def hexdump_str (bytes : List Nat) (nbytes : Nat) (out : String) : String :=
  hexdump_str_loop bytes nbytes 0 out

/-- The `for` loop of `map_to_string` with `n` iterations left, loop variable
`i`, the counter `added_entries` and the text written so far.  The bytes of a
key and of a value are given by `kb` and `vb`.  The comparison with
`map->count - 1` is one of `unsigned` values. -/
def map_to_string_loop (kb : K → List Nat) (vb : V → List Nat) (m : map_t K V) :
    Nat → Nat → Nat → String → String
  | 0, _, _, str => str
  | n + 1, i, added_entries, str =>
    if IS_ENTRY_FREE m i then map_to_string_loop kb vb m n (i + 1) added_entries str
    else
      let str := str ++ "\""
      let str := hexdump_str (kb (KEYS_ITER m i)) m.key_size str
      let str := str ++ "\" : \""
      let str := hexdump_str (vb (VALS_ITER m i)) m.val_size str
      let str := str ++
        (if added_entries == (m.count + UINT_MOD - 1) % UINT_MOD then "\"" else "\", ")
      map_to_string_loop kb vb m n (i + 1) (added_entries + 1) str

/-- The function `map_to_string`: the text written to `str`. -/
def map_to_string (kb : K → List Nat) (vb : V → List Nat) (m : map_t K V) : String :=
  let str := "<map size(" ++ fmt_u (map_size m) ++ ") len(" ++ fmt_u (map_len m) ++
    ") items(\x7b"
  let str := map_to_string_loop kb vb m m.size 0 0 str
  str ++ "\x7d)>"

/-- The text format as the specification words it: two lowercase hexadecimal
digits for one byte. -/
def spec_hex_byte (b : Nat) : String :=
  String.mk [Nat.digitChar (b / 16), Nat.digitChar (b % 16)]

/-- The text format as the specification words it: the bytes in storage order,
two digits each, with no separator. -/
def spec_hex : List Nat → String
  | [] => ""
  | b :: bs => spec_hex_byte b ++ spec_hex bs

/-- The text format as the specification words it: the items joined by a
separator, with no separator after the last item. -/
def spec_join (sep : String) : List String → String
  | [] => ""
  | [a] => a
  | a :: b :: rest => a ++ sep ++ spec_join sep (b :: rest)

/-- The text format as the specification words it: the entry of slot `i`,
`"<key_hex>" : "<value_hex>"`, over the `key_size` and `val_size` bytes of the
slot. -/
def spec_entry (kb : K → List Nat) (vb : V → List Nat) (m : map_t K V) (i : Nat) : String :=
  "\"" ++ spec_hex ((kb (KEYS_ITER m i)).take m.key_size) ++ "\" : \"" ++
    spec_hex ((vb (VALS_ITER m i)).take m.val_size) ++ "\""

/-- The text format as the specification words it: the used slots in ascending
index order. -/
def spec_used_slots (m : map_t K V) : List Nat :=
  (List.range m.size).filter (fun i => !IS_ENTRY_FREE m i)

/-- The text format as the specification words it:
`<map size(C) len(N) items(E)>` with `E` in braces, the entries of the used
slots joined by a comma and a blank. -/
def spec_to_text (kb : K → List Nat) (vb : V → List Nat) (m : map_t K V) : String :=
  "<map size(" ++ Nat.repr m.size ++ ") len(" ++ Nat.repr m.count ++ ") items(\x7b" ++
    spec_join ", " ((spec_used_slots m).map (spec_entry kb vb m)) ++ "\x7d)>"

/-- The bytes of a `char` key. -/
def char_bytes (c : Nat) : List Nat := [c % 256]

/-- The bytes of an `unsigned` value, least significant byte first. -/
def unsigned_bytes (u : Nat) : List Nat :=
  [u % 256, u / 256 % 256, u / 65536 % 256, u / 16777216 % 256]

/-- The entries joined as the loop of `map_to_string` joins them: the entry
with running number `c` is followed by nothing, every other entry by a comma
and a blank; `a` is the running number of the first entry. -/
def join_counted (c : Nat) : Nat → List String → String
  | _, [] => ""
  | a, e :: es => e ++ (if a == c then "" else ", ") ++ join_counted c (a + 1) es

/-! ## Lemmas on the two loops -/

theorem first_from_succ (p : Nat → Bool) (n i : Nat) :
    first_from p (n + 1) i = if p i then some i else first_from p n (i + 1) := rfl

theorem first_from_eq_some (p : Nat → Bool) (n i j : Nat) :
    first_from p n i = some j ↔
      i ≤ j ∧ j < i + n ∧ p j = true ∧ ∀ t, i ≤ t → t < j → p t = false := by
  induction n generalizing i with
  | zero =>
    simp only [first_from]
    constructor
    · intro h; cases h
    · rintro ⟨h1, h2, _, _⟩
      omega
  | succ n ih =>
    rw [first_from_succ]
    by_cases hp : p i = true
    · rw [if_pos hp]
      constructor
      · intro h
        have hij : i = j := Option.some.inj h
        subst hij
        exact ⟨le_refl _, by omega, hp, fun t h1 h2 => by omega⟩
      · rintro ⟨h1, _, _, h4⟩
        by_cases hij : i = j
        · rw [hij]
        · have := h4 i (le_refl _) (by omega)
          rw [hp] at this
          cases this
    · rw [if_neg hp, ih]
      have hpf : p i = false := by simpa using hp
      constructor
      · rintro ⟨h1, h2, h3, h4⟩
        refine ⟨by omega, by omega, h3, fun t ht1 ht2 => ?_⟩
        by_cases hti : t = i
        · subst hti; exact hpf
        · exact h4 t (by omega) ht2
      · rintro ⟨h1, h2, h3, h4⟩
        have hij : i ≠ j := by
          intro hij
          subst hij
          rw [h3] at hpf
          cases hpf
        exact ⟨by omega, by omega, h3, fun t ht1 ht2 => h4 t (by omega) ht2⟩

theorem first_from_eq_none (p : Nat → Bool) (n i : Nat) :
    first_from p n i = none ↔ ∀ t, i ≤ t → t < i + n → p t = false := by
  induction n generalizing i with
  | zero =>
    simp only [first_from, true_iff]
    intro t h1 h2
    omega
  | succ n ih =>
    rw [first_from_succ]
    by_cases hp : p i = true
    · rw [if_pos hp]
      constructor
      · intro h; cases h
      · intro h
        have := h i (le_refl _) (by omega)
        rw [hp] at this
        cases this
    · rw [if_neg hp, ih]
      have hpf : p i = false := by simpa using hp
      constructor
      · intro h t ht1 ht2
        by_cases hti : t = i
        · subst hti; exact hpf
        · exact h t (by omega) (by omega)
      · intro h t ht1 ht2
        exact h t (by omega) (by omega)

theorem map_find_loop_eq (m : map_t K V) (key : K) (n itr : Nat) :
    map_find_loop m key n itr =
      first_from (fun i => !IS_ENTRY_FREE m i && m.compare key (KEYS_ITER m i)) n itr := by
  induction n generalizing itr with
  | zero => rfl
  | succ n ih =>
    unfold map_find_loop first_from
    cases hf : IS_ENTRY_FREE m itr <;> cases hc : m.compare key (KEYS_ITER m itr) <;>
      simp [ih]

theorem map_alloc_loop_eq (m : map_t K V) (n idx : Nat) :
    map_alloc_loop m n idx = first_from (fun i => IS_ENTRY_FREE m i) n idx := by
  induction n generalizing idx with
  | zero => rfl
  | succ n ih =>
    unfold map_alloc_loop first_from
    cases hf : IS_ENTRY_FREE m idx <;> simp [ih]

/-- What `map_find` reports when it finds the key. -/
theorem map_find_eq_some (m : map_t K V) (key : K) (idx : Nat) :
    map_find m key = some idx ↔
      idx < m.count ∧ IS_ENTRY_FREE m idx = false ∧ m.compare key (KEYS_ITER m idx) = true ∧
        ∀ j, j < idx → IS_ENTRY_FREE m j = true ∨ m.compare key (KEYS_ITER m j) = false := by
  unfold map_find
  rw [map_find_loop_eq, first_from_eq_some]
  constructor
  · rintro ⟨_, h2, h3, h4⟩
    simp only [Bool.and_eq_true, Bool.not_eq_true', zero_add] at h2 h3
    refine ⟨by omega, h3.1, h3.2, fun j hj => ?_⟩
    have := h4 j (Nat.zero_le _) hj
    cases hf : IS_ENTRY_FREE m j <;> simp_all
  · rintro ⟨h1, h2, h3, h4⟩
    refine ⟨Nat.zero_le _, by omega, by simp [h2, h3], fun t _ ht => ?_⟩
    rcases h4 t ht with h | h <;> simp [h]

/-- What `map_find` has seen when it does not find the key. -/
theorem map_find_eq_none (m : map_t K V) (key : K) :
    map_find m key = none ↔
      ∀ j, j < m.count → IS_ENTRY_FREE m j = true ∨ m.compare key (KEYS_ITER m j) = false := by
  unfold map_find
  rw [map_find_loop_eq, first_from_eq_none]
  constructor
  · intro h j hj
    have := h j (Nat.zero_le _) (by omega)
    cases hf : IS_ENTRY_FREE m j <;> simp_all
  · intro h t _ ht
    rcases h t (by omega) with h | h <;> simp [h]

theorem map_alloc_eq_some (m : map_t K V) (idx : Nat) :
    map_alloc_new_entry m = some idx ↔
      idx < m.size ∧ IS_ENTRY_FREE m idx = true ∧ ∀ j, j < idx → IS_ENTRY_FREE m j = false := by
  unfold map_alloc_new_entry
  rw [map_alloc_loop_eq, first_from_eq_some]
  constructor
  · rintro ⟨_, h2, h3, h4⟩
    exact ⟨by omega, h3, fun j hj => h4 j (Nat.zero_le _) hj⟩
  · rintro ⟨h1, h2, h3⟩
    exact ⟨Nat.zero_le _, by omega, h2, fun t _ ht => h3 t ht⟩

theorem map_alloc_eq_none (m : map_t K V) :
    map_alloc_new_entry m = none ↔ ∀ j, j < m.size → IS_ENTRY_FREE m j = false := by
  unfold map_alloc_new_entry
  rw [map_alloc_loop_eq, first_from_eq_none]
  constructor
  · intro h j hj
    exact h j (Nat.zero_le _) (by omega)
  · intro h t _ ht
    exact h t (by omega)

/-! ## Lemmas on the regions -/

theorem getD_set (l : List α) (i j : Nat) (a d : α) :
    (l.set i a).getD j d = if i = j ∧ i < l.length then a else l.getD j d := by
  simp only [List.getD_eq_getElem?_getD, List.getElem?_set]
  by_cases hij : i = j
  · subst hij
    by_cases hi : i < l.length
    · simp [hi]
    · simp [hi, List.getElem?_eq_none (Nat.le_of_not_lt hi)]
  · simp [hij]

theorem lt_length_of_getD_ne (l : List Nat) (i : Nat) (h : l.getD i 0 ≠ 0) : i < l.length := by
  by_contra hi
  apply h
  simp only [List.getD_eq_getElem?_getD]
  rw [List.getElem?_eq_none (by omega)]
  rfl

theorem countP_set_used (l : List Nat) (i : Nat) (hi : i < l.length) (h : l.getD i 0 = 0) :
    (l.set i 1).countP (fun u => u != 0) = l.countP (fun u => u != 0) + 1 := by
  rw [List.countP_set _ _ _ _ hi]
  have h0 : l[i] = 0 := by
    simpa [List.getD_eq_getElem?_getD, List.getElem?_eq_getElem hi] using h
  simp [h0]

theorem countP_set_free (l : List Nat) (i : Nat) (h : l.getD i 0 ≠ 0) :
    (l.set i 0).countP (fun u => u != 0) + 1 = l.countP (fun u => u != 0) := by
  have hi : i < l.length := lt_length_of_getD_ne l i h
  rw [List.countP_set _ _ _ _ hi]
  have h0 : l[i] ≠ 0 := by
    simpa [List.getD_eq_getElem?_getD, List.getElem?_eq_getElem hi] using h
  have hle := List.boole_getElem_le_countP (fun u : Nat => u != 0) l i hi
  simp only [bne_iff_ne, ne_eq, h0, not_false_eq_true, if_true] at hle
  simp [h0]
  omega

theorem le_countP_of_used_below (l : List Nat) (i : Nat)
    (h : ∀ j, j < i → l.getD j 0 ≠ 0) : i ≤ l.countP (fun u => u != 0) := by
  induction l generalizing i with
  | nil =>
    cases i with
    | zero => exact Nat.zero_le _
    | succ i => exact absurd rfl (h 0 (Nat.succ_pos _))
  | cons x xs ih =>
    cases i with
    | zero => exact Nat.zero_le _
    | succ i =>
      have hx : x ≠ 0 := by simpa using h 0 (Nat.succ_pos _)
      have hrest : i ≤ xs.countP (fun u => u != 0) :=
        ih i (fun j hj => by simpa using h (j + 1) (by omega))
      rw [List.countP_cons_of_pos _ _ (by simpa using hx)]
      omega

theorem getD_ne_of_countP_eq_length (l : List Nat) (h : l.countP (fun u => u != 0) = l.length)
    (i : Nat) (hi : i < l.length) : l.getD i 0 ≠ 0 := by
  rw [List.countP_eq_length] at h
  have := h l[i] (List.getElem_mem hi)
  simpa [List.getD_eq_getElem?_getD, List.getElem?_eq_getElem hi] using this

/-! ## Reading a slot -/

theorem is_entry_free_eq_true (m : map_t K V) (i : Nat) :
    IS_ENTRY_FREE m i = true ↔ m.usage.getD i 0 = 0 := by
  simp [IS_ENTRY_FREE, USAGE_ITER, MAP_ENTRY_FREE]

theorem is_entry_free_eq_false (m : map_t K V) (i : Nat) :
    IS_ENTRY_FREE m i = false ↔ m.usage.getD i 0 ≠ 0 := by
  simp [IS_ENTRY_FREE, USAGE_ITER, MAP_ENTRY_FREE]

/-- A slot that reads as used lies inside the usage region. -/
theorem lt_usage_length_of_used (m : map_t K V) (i : Nat) (h : IS_ENTRY_FREE m i = false) :
    i < m.usage.length :=
  lt_length_of_getD_ne _ _ ((is_entry_free_eq_false m i).1 h)

/-! ## The branches of `map_add`, `map_delete` and `map_update` -/

theorem map_add_of_found (m : map_t K V) (key : K) (val : V) (i : Nat)
    (h : map_find m key = some i) : map_add m key val = (false, m) := by
  simp [map_add, h]

theorem map_add_of_full (m : map_t K V) (key : K) (val : V)
    (h : map_alloc_new_entry m = none) : map_add m key val = (false, m) := by
  unfold map_add
  cases map_find m key <;> simp [h]

theorem map_add_of_alloc (m : map_t K V) (key : K) (val : V) (idx : Nat)
    (hf : map_find m key = none) (ha : map_alloc_new_entry m = some idx) :
    map_add m key val =
      (true, { m with
        keys := m.keys.set idx key
        values := m.values.set idx val
        usage := m.usage.set idx MAP_ENTRY_USED
        count := (m.count + 1) % UINT_MOD }) := by
  simp [map_add, hf, ha]

/-- A successful `map_add` went through both checks. -/
theorem map_add_true (m : map_t K V) (key : K) (val : V) (h : (map_add m key val).1 = true) :
    ∃ idx, map_find m key = none ∧ map_alloc_new_entry m = some idx := by
  cases hf : map_find m key with
  | some i => rw [map_add_of_found m key val i hf] at h; cases h
  | none =>
    cases ha : map_alloc_new_entry m with
    | none => rw [map_add_of_full m key val ha] at h; cases h
    | some idx => exact ⟨idx, rfl, rfl⟩

/-- A failed `map_add` returns the map it was given. -/
theorem map_add_false (m : map_t K V) (key : K) (val : V) (h : (map_add m key val).1 = false) :
    map_add m key val = (false, m) := by
  cases hf : map_find m key with
  | some i => exact map_add_of_found m key val i hf
  | none =>
    cases ha : map_alloc_new_entry m with
    | none => exact map_add_of_full m key val ha
    | some idx => rw [map_add_of_alloc m key val idx hf ha] at h; cases h

theorem map_delete_of_found (m : map_t K V) (key : K) (idx : Nat)
    (h : map_find m key = some idx) :
    map_delete m key =
      { m with
        usage := m.usage.set idx MAP_ENTRY_FREE
        count := (m.count + UINT_MOD - 1) % UINT_MOD } := by
  simp [map_delete, h]

theorem map_delete_of_absent (m : map_t K V) (key : K) (h : map_find m key = none) :
    map_delete m key = m := by
  simp [map_delete, h]

theorem map_update_of_found (m : map_t K V) (key : K) (val : V) (c : Bool) (idx : Nat)
    (h : map_find m key = some idx) :
    map_update m key val c = (true, { m with values := m.values.set idx val }) := by
  simp [map_update, h]

theorem map_update_of_absent (m : map_t K V) (key : K) (val : V) (c : Bool)
    (h : map_find m key = none) :
    map_update m key val c = if c then map_add m key val else (false, m) := by
  simp [map_update, h]

/-! ## The invariants hold in every reachable state -/

theorem used_count_le (m : map_t K V) : used_count m ≤ m.usage.length :=
  List.countP_le_length _

theorem valid_of_empty (m : map_t K V) (h : Empty m) : Valid m := by
  obtain ⟨hs, hsz, hc, hu⟩ := h
  refine ⟨hs, hsz, ?_⟩
  rw [hc, used_count, hu]
  simp [List.countP_replicate, MAP_ENTRY_FREE]

theorem valid_add (m : map_t K V) (key : K) (val : V) (h : Valid m) :
    Valid (map_add m key val).2 := by
  cases hb : (map_add m key val).1 with
  | false => rw [map_add_false m key val hb]; exact h
  | true =>
    obtain ⟨idx, hf, ha⟩ := map_add_true m key val hb
    rw [map_add_of_alloc m key val idx hf ha]
    obtain ⟨⟨hk, hv, hu⟩, hsz, hc⟩ := h
    obtain ⟨hidx, hfree, _⟩ := (map_alloc_eq_some m idx).1 ha
    have hcnt : (m.usage.set idx MAP_ENTRY_USED).countP (fun u => u != MAP_ENTRY_FREE)
        = used_count m + 1 :=
      countP_set_used m.usage idx (by omega) ((is_entry_free_eq_true m idx).1 hfree)
    have hle : (m.usage.set idx MAP_ENTRY_USED).countP (fun u => u != MAP_ENTRY_FREE)
        ≤ (m.usage.set idx MAP_ENTRY_USED).length := List.countP_le_length _
    rw [List.length_set] at hle
    refine ⟨⟨by simpa using hk, by simpa using hv, by simpa using hu⟩, hsz, ?_⟩
    show (m.count + 1) % UINT_MOD = _
    rw [used_count]
    show _ = (m.usage.set idx MAP_ENTRY_USED).countP (fun u => u != MAP_ENTRY_FREE)
    rw [hcnt, hc]
    apply Nat.mod_eq_of_lt
    omega

theorem valid_delete (m : map_t K V) (key : K) (h : Valid m) : Valid (map_delete m key) := by
  cases hf : map_find m key with
  | none => rw [map_delete_of_absent m key hf]; exact h
  | some idx =>
    rw [map_delete_of_found m key idx hf]
    obtain ⟨⟨hk, hv, hu⟩, hsz, hc⟩ := h
    obtain ⟨_, hused, _, _⟩ := (map_find_eq_some m key idx).1 hf
    have hcnt : (m.usage.set idx MAP_ENTRY_FREE).countP (fun u => u != MAP_ENTRY_FREE) + 1
        = used_count m :=
      countP_set_free m.usage idx ((is_entry_free_eq_false m idx).1 hused)
    have hle : used_count m ≤ m.usage.length := used_count_le m
    refine ⟨⟨hk, hv, by simpa using hu⟩, hsz, ?_⟩
    show (m.count + UINT_MOD - 1) % UINT_MOD = _
    rw [used_count]
    show _ = (m.usage.set idx MAP_ENTRY_FREE).countP (fun u => u != MAP_ENTRY_FREE)
    have h1 : m.count + UINT_MOD - 1 = (m.count - 1) + UINT_MOD := by omega
    rw [h1, Nat.add_mod_right, Nat.mod_eq_of_lt (by omega)]
    omega

theorem valid_update (m : map_t K V) (key : K) (val : V) (c : Bool) (h : Valid m) :
    Valid (map_update m key val c).2 := by
  cases hf : map_find m key with
  | some idx =>
    rw [map_update_of_found m key val c idx hf]
    obtain ⟨⟨hk, hv, hu⟩, hsz, hc⟩ := h
    exact ⟨⟨hk, by simpa using hv, hu⟩, hsz, hc⟩
  | none =>
    rw [map_update_of_absent m key val c hf]
    cases c with
    | true => exact valid_add m key val h
    | false => exact h

theorem memset_all (region : List Nat) (c n : Nat) (h : region.length ≤ n) :
    memset region c n = List.replicate region.length c := by
  simp [memset, Nat.min_eq_right h, List.drop_eq_nil_of_le h]

/-- In a map whose usage region has `size` bytes `map_erase` frees every slot. -/
theorem map_erase_usage (m : map_t K V) (hu : m.usage.length = m.size) :
    (map_erase m).usage = List.replicate m.size MAP_ENTRY_FREE := by
  show memset m.usage MAP_ENTRY_FREE (m.size + USAGE_SINGLE_ENTRY_SIZE) = _
  rw [memset_all _ _ _ (by omega), hu]

theorem valid_erase (m : map_t K V) (h : Valid m) : Valid (map_erase m) := by
  obtain ⟨⟨hk, hv, hu⟩, hsz, hc⟩ := h
  have he := map_erase_usage m hu
  refine ⟨⟨hk, hv, ?_⟩, hsz, ?_⟩
  · rw [he]
    exact List.length_replicate _ _
  · show 0 = used_count (map_erase m)
    rw [used_count, he]
    simp [List.countP_replicate, MAP_ENTRY_FREE]

/-- Every reachable state satisfies the data-model invariants. -/
theorem valid_of_reachable (m : map_t K V) (h : Reachable m) : Valid m := by
  induction h with
  | empty m he => exact valid_of_empty m he
  | add m key val _ ih => exact valid_add m key val ih
  | update m key val c _ ih => exact valid_update m key val c ih
  | delete m key _ ih => exact valid_delete m key ih
  | erase m _ ih => exact valid_erase m ih

/-! ## The demonstration maps are reachable -/

theorem empty_declared (key_size val_size static_size : Nat) (cmp : K → K → Bool)
    (h : static_size < UINT_MOD) :
    Empty (DECLARE_STATIC_MAP key_size val_size static_size cmp : map_t K V) := by
  refine ⟨⟨?_, ?_, ?_⟩, h, rfl, rfl⟩ <;> simp [DECLARE_STATIC_MAP]

theorem reachable_test_map : Reachable test_map :=
  Reachable.empty _ (empty_declared 1 4 20 compare_chars (by decide))

theorem reachable_test_map_abc : Reachable test_map_abc :=
  Reachable.add _ 99 2 (Reachable.add _ 98 1 (Reachable.add _ 97 0 reachable_test_map))

theorem reachable_test_map_bc : Reachable test_map_bc :=
  Reachable.delete _ 97 reachable_test_map_abc

theorem reachable_test_map_cbc : Reachable test_map_cbc :=
  Reachable.add _ 99 3 reachable_test_map_bc

theorem reachable_small_map_ab : Reachable small_map_ab :=
  Reachable.add _ 98 1 (Reachable.add _ 97 0
    (Reachable.empty _ (empty_declared 1 4 2 compare_chars (by decide))))

theorem compare_chars_equiv (m : map_t Nat Nat) (h : m.compare = compare_chars) :
    CompareEquiv m := by
  refine ⟨?_, ?_, ?_⟩
  · intro a; simp [h, compare_chars]
  · intro a b; simp only [h, compare_chars, beq_iff_eq]; intro hab; exact hab.symm
  · intro a b c; simp only [h, compare_chars, beq_iff_eq]; intro hab hbc; exact hab.trans hbc

/-! ## Slots after a successful `map_add` -/

/-- In a valid map the slot chosen by `map_alloc_new_entry` has an index of at
most `count`, and `count + 1` does not wrap. -/
theorem alloc_le_count (m : map_t K V) (h : Valid m) (idx : Nat)
    (ha : map_alloc_new_entry m = some idx) :
    idx ≤ m.count ∧ idx < m.usage.length ∧ (m.count + 1) % UINT_MOD = m.count + 1 := by
  obtain ⟨⟨hk, hv, hu⟩, hsz, hc⟩ := h
  obtain ⟨hidx, hfree, hbelow⟩ := (map_alloc_eq_some m idx).1 ha
  have h1 : idx ≤ used_count m :=
    le_countP_of_used_below m.usage idx
      (fun j hj => (is_entry_free_eq_false m j).1 (hbelow j hj))
  have hcnt : (m.usage.set idx MAP_ENTRY_USED).countP (fun u => u != MAP_ENTRY_FREE)
      = used_count m + 1 :=
    countP_set_used m.usage idx (by omega) ((is_entry_free_eq_true m idx).1 hfree)
  have hle : (m.usage.set idx MAP_ENTRY_USED).countP (fun u => u != MAP_ENTRY_FREE)
      ≤ (m.usage.set idx MAP_ENTRY_USED).length := List.countP_le_length _
  rw [List.length_set] at hle
  refine ⟨by omega, by omega, ?_⟩
  apply Nat.mod_eq_of_lt
  omega

theorem map_get_after_add (m : map_t K V) (h : Valid m) (hrefl : CompareRefl m)
    (key : K) (val : V) (hadd : (map_add m key val).1 = true) :
    map_get (map_add m key val).2 key = some val := by
  obtain ⟨idx, hf, ha⟩ := map_add_true m key val hadd
  obtain ⟨hle, hlt, hmod⟩ := alloc_le_count m h idx ha
  obtain ⟨⟨hk, hv, hu⟩, _, _⟩ := h
  have hnone := (map_find_eq_none m key).1 hf
  rw [map_add_of_alloc m key val idx hf ha]
  have hfind : map_find ({ m with
        keys := m.keys.set idx key
        values := m.values.set idx val
        usage := m.usage.set idx MAP_ENTRY_USED
        count := (m.count + 1) % UINT_MOD } : map_t K V) key = some idx := by
    rw [map_find_eq_some]
    refine ⟨?_, ?_, ?_, ?_⟩
    · show idx < (m.count + 1) % UINT_MOD
      omega
    · simp only [IS_ENTRY_FREE, USAGE_ITER, getD_set]
      simp [hlt, MAP_ENTRY_USED, MAP_ENTRY_FREE]
    · simp only [KEYS_ITER, getD_set]
      have : idx < m.keys.length := by omega
      simp only [this, and_self, if_true]
      exact hrefl key
    · intro j hj
      have hne : ¬ (idx = j ∧ idx < m.usage.length) := by omega
      have hne2 : ¬ (idx = j ∧ idx < m.keys.length) := by omega
      simp only [IS_ENTRY_FREE, USAGE_ITER, KEYS_ITER, getD_set, hne, hne2, if_false]
      exact hnone j (by omega)
  simp only [map_get, hfind, VALS_ITER, getD_set]
  have : idx < m.values.length := by omega
  simp [this]

/-! ## Lookup (C1) -/

/-- C1, evaluated on the code: after `map_add` of `a`, `b`, `c` and `map_delete`
of `a` (a reachable state), slot 2 is below the capacity, is used and holds the
key `c`, yet `map_get` of `c` returns false: `map_find` scans only the
indices below `count`, which is 2 here. -/
theorem map_get_misses_used_slot :
    Reachable test_map_bc ∧ test_map_bc.count = 2 ∧ test_map_bc.size = 20 ∧
      test_map_bc.usage.take 3 = [0, 1, 1] ∧ test_map_bc.keys.take 3 = [97, 98, 99] ∧
      Holds test_map_bc 2 99 ∧ map_get test_map_bc 99 = none :=
  ⟨reachable_test_map_bc, by decide, by decide, by decide, by decide,
    ⟨by decide, by decide, by decide⟩, by decide⟩

/-! ## No duplicate keys (C2) -/

/-- C2, evaluated on the code: after `map_add` of `a`, `b`, `c`, `map_delete` of
`a` and a second `map_add` of `c` (a reachable state, with `compare_chars` an
equivalence relation) the two used slots 0 and 2 both hold the key `c`. -/
theorem map_add_stores_duplicate_key :
    Reachable test_map_cbc ∧ CompareEquiv test_map_cbc ∧
      test_map_cbc.usage.take 3 = [1, 1, 1] ∧ test_map_cbc.keys.take 3 = [99, 98, 99] ∧
      Holds test_map_cbc 0 99 ∧ Holds test_map_cbc 2 99 :=
  ⟨reachable_test_map_cbc, compare_chars_equiv _ rfl, by decide, by decide,
    ⟨by decide, by decide, by decide⟩, ⟨by decide, by decide, by decide⟩⟩

/-! ## Insert then lookup (C3) -/

/-- C3: in a reachable state with a reflexive comparison callback, when
`map_add(k, v)` returns true, `map_get(k)` on the resulting map returns true
with exactly `v`. -/
theorem map_add_get_roundtrip (m : map_t K V) (hr : Reachable m) (hrefl : CompareRefl m)
    (key : K) (val : V) (hadd : (map_add m key val).1 = true) :
    map_get (map_add m key val).2 key = some val :=
  map_get_after_add m (valid_of_reachable m hr) hrefl key val hadd

/-- Witness of C3 on the state after `a`, `b`, `c` were added and `a` deleted:
`map_add` of `d` (code 100) with value 7 succeeds and is read back. -/
theorem map_add_get_roundtrip_witness :
    Reachable test_map_bc ∧ CompareRefl test_map_bc ∧ (map_add test_map_bc 100 7).1 = true ∧
      map_get (map_add test_map_bc 100 7).2 100 = some 7 :=
  ⟨reachable_test_map_bc, (compare_chars_equiv test_map_bc rfl).1, by decide,
    map_add_get_roundtrip test_map_bc reachable_test_map_bc
      (compare_chars_equiv test_map_bc rfl).1 100 7 (by decide)⟩

/-! ## Duplicate rejection (C4) -/

/-- C4, evaluated on the code: in the reachable state after `map_add` of `a`,
`b`, `c` and `map_delete` of `a`, the used slot 2 holds the key `c`, yet
`map_add` of `c` returns true, writes slot 0 and raises `count` from 2 to 3. -/
theorem map_add_accepts_held_key :
    Reachable test_map_bc ∧ Holds test_map_bc 2 99 ∧
      (map_add test_map_bc 99 3).1 = true ∧
      test_map_bc.count = 2 ∧ (map_add test_map_bc 99 3).2.count = 3 ∧
      IS_ENTRY_FREE test_map_bc 0 = true ∧
      IS_ENTRY_FREE (map_add test_map_bc 99 3).2 0 = false ∧
      KEYS_ITER (map_add test_map_bc 99 3).2 0 = 99 ∧
      VALS_ITER (map_add test_map_bc 99 3).2 0 = 3 :=
  ⟨reachable_test_map_bc, ⟨by decide, by decide, by decide⟩, by decide, by decide, by decide,
    by decide, by decide, by decide, by decide⟩

/-! ## Delete (C5) -/

/-- C5, evaluated on the code: in the reachable state after `map_add` of `a`,
`b`, `c` and `map_delete` of `a` (with `compare_chars` an equivalence
relation) the used slot 2 holds the key `c`, yet `map_delete` of `c` changes
nothing: `count` stays 2 and slot 2 stays used. -/
theorem map_delete_skips_held_key :
    Reachable test_map_bc ∧ CompareEquiv test_map_bc ∧ Holds test_map_bc 2 99 ∧
      test_map_bc.count = 2 ∧ (map_delete test_map_bc 99).count = 2 ∧
      Holds (map_delete test_map_bc 99) 2 99 ∧
      (map_delete test_map_bc 99).usage = test_map_bc.usage :=
  ⟨reachable_test_map_bc, compare_chars_equiv _ rfl, ⟨by decide, by decide, by decide⟩,
    by decide, by decide, ⟨by decide, by decide, by decide⟩, by decide⟩

/-! ## Count invariant (C6) -/

/-- C6: in every reachable state `count` is the number of slots whose usage
flag is set, so `count` is at most the capacity; and whenever `map_delete`
finds its key, `count` is at least 1 and the decrement gives `count - 1`
without wrapping. -/
theorem count_invariant (m : map_t K V) (hr : Reachable m) :
    m.count = used_count m ∧ 0 ≤ m.count ∧ m.count ≤ m.size ∧
      ∀ key idx, map_find m key = some idx →
        1 ≤ m.count ∧ (map_delete m key).count = m.count - 1 ∧
          (map_delete m key).count = used_count (map_delete m key) := by
  have hv := valid_of_reachable m hr
  obtain ⟨⟨_, _, hu⟩, hsz, hc⟩ := hv
  have hle := used_count_le m
  refine ⟨hc, Nat.zero_le _, by omega, fun key idx hf => ?_⟩
  obtain ⟨hidx, _, _, _⟩ := (map_find_eq_some m key idx).1 hf
  refine ⟨by omega, ?_, (valid_of_reachable _ (Reachable.delete m key hr)).2.2⟩
  rw [map_delete_of_found m key idx hf]
  show (m.count + UINT_MOD - 1) % UINT_MOD = m.count - 1
  have h1 : m.count + UINT_MOD - 1 = (m.count - 1) + UINT_MOD := by omega
  rw [h1, Nat.add_mod_right, Nat.mod_eq_of_lt (by omega)]

/-- Witness of C6 on the state after `a`, `b`, `c` were added and `a` deleted,
with the key `b` found at slot 1. -/
theorem count_invariant_witness :
    Reachable test_map_bc ∧ test_map_bc.count = used_count test_map_bc ∧
      test_map_bc.count ≤ test_map_bc.size ∧ map_find test_map_bc 98 = some 1 ∧
      (map_delete test_map_bc 98).count = test_map_bc.count - 1 :=
  ⟨reachable_test_map_bc, (count_invariant test_map_bc reachable_test_map_bc).1,
    (count_invariant test_map_bc reachable_test_map_bc).2.2.1, by decide,
    ((count_invariant test_map_bc reachable_test_map_bc).2.2.2 98 1 (by decide)).2.1⟩

/-! ## Capacity exhaustion (C7) -/

/-- C7: in a reachable state with `count == size` (of any capacity, 0
included) every slot is used, and `map_add` returns false and leaves the map
unchanged for every key and value. -/
theorem map_add_full (m : map_t K V) (hr : Reachable m) (hfull : m.count = m.size)
    (key : K) (val : V) :
    (∀ i, i < m.size → IS_ENTRY_FREE m i = false) ∧ map_add m key val = (false, m) := by
  obtain ⟨⟨_, _, hu⟩, _, hc⟩ := valid_of_reachable m hr
  have hall : ∀ i, i < m.size → IS_ENTRY_FREE m i = false := by
    intro i hi
    rw [is_entry_free_eq_false]
    apply getD_ne_of_countP_eq_length
    · have : used_count m = m.usage.length := by omega
      exact this
    · omega
  exact ⟨hall, map_add_of_full m key val ((map_alloc_eq_none m).2 hall)⟩

/-- Witness of C7 on the capacity-2 map holding `a` and `b`: `map_add` of `c`
fails and returns the same map. -/
theorem map_add_full_witness :
    Reachable small_map_ab ∧ small_map_ab.count = small_map_ab.size ∧
      map_add small_map_ab 99 2 = (false, small_map_ab) :=
  ⟨reachable_small_map_ab, by decide,
    (map_add_full small_map_ab reachable_small_map_ab (by decide) 99 2).2⟩

/-! ## First-fit allocation (C8) -/

/-- C8: in a valid map state, when `map_add(k, v)` returns true there is a slot
`idx`, the lowest-indexed free slot of the old map, such that in the new map
slot `idx` holds `k` and `v` and is marked used, `count` is one more than
before, every other slot has the key, value and usage flag it had, and the
header fields and region sizes are unchanged. -/
theorem map_add_first_fit (m : map_t K V) (hv : Valid m) (key : K) (val : V)
    (hadd : (map_add m key val).1 = true) :
    ∃ idx, idx < m.size ∧ IS_ENTRY_FREE m idx = true ∧
      (∀ j, j < idx → IS_ENTRY_FREE m j = false) ∧
      KEYS_ITER (map_add m key val).2 idx = key ∧
      VALS_ITER (map_add m key val).2 idx = val ∧
      USAGE_ITER (map_add m key val).2 idx = MAP_ENTRY_USED ∧
      (map_add m key val).2.count = m.count + 1 ∧
      (∀ j, j ≠ idx →
        KEYS_ITER (map_add m key val).2 j = KEYS_ITER m j ∧
        VALS_ITER (map_add m key val).2 j = VALS_ITER m j ∧
        USAGE_ITER (map_add m key val).2 j = USAGE_ITER m j) ∧
      (map_add m key val).2.size = m.size ∧
      (map_add m key val).2.key_size = m.key_size ∧
      (map_add m key val).2.val_size = m.val_size ∧
      (map_add m key val).2.compare = m.compare ∧
      Storage (map_add m key val).2 := by
  obtain ⟨idx, hf, ha⟩ := map_add_true m key val hadd
  obtain ⟨_, hlt, hmod⟩ := alloc_le_count m hv idx ha
  obtain ⟨hidx, hfree, hbelow⟩ := (map_alloc_eq_some m idx).1 ha
  have hst := (valid_add m key val hv).1
  obtain ⟨⟨hk, hvl, hu⟩, _, _⟩ := hv
  have hlk : idx < m.keys.length := by omega
  have hlv : idx < m.values.length := by omega
  refine ⟨idx, hidx, hfree, hbelow, ?_⟩
  rw [map_add_of_alloc m key val idx hf ha] at hst ⊢
  refine ⟨?_, ?_, ?_, hmod, ?_, rfl, rfl, rfl, rfl, hst⟩
  · simp only [KEYS_ITER, getD_set, hlk, and_self, if_true]
  · simp only [VALS_ITER, getD_set, hlv, and_self, if_true]
  · simp only [USAGE_ITER, getD_set, hlt, and_self, if_true]
  · intro j hj
    have hne : ∀ n : Nat, ¬ (idx = j ∧ idx < n) := fun n h => hj h.1.symm
    simp only [KEYS_ITER, VALS_ITER, USAGE_ITER, getD_set, hne, if_false, and_self]

/-- Witness of C8 on the state after `a`, `b`, `c` were added and `a` deleted:
`map_add` of `d` takes the freed slot 0 and leaves slot 2 as it was. -/
theorem map_add_first_fit_witness :
    Valid test_map_bc ∧ (map_add test_map_bc 100 7).1 = true ∧
      IS_ENTRY_FREE test_map_bc 0 = true ∧
      KEYS_ITER (map_add test_map_bc 100 7).2 0 = 100 ∧
      VALS_ITER (map_add test_map_bc 100 7).2 0 = 7 ∧
      (map_add test_map_bc 100 7).2.count = test_map_bc.count + 1 ∧
      KEYS_ITER (map_add test_map_bc 100 7).2 2 = KEYS_ITER test_map_bc 2 := by
  refine ⟨valid_of_reachable _ reachable_test_map_bc, by decide, ?_⟩
  obtain ⟨idx, _, h2, h3, h4, h5, _, h7, h8, _⟩ :=
    map_add_first_fit test_map_bc (valid_of_reachable _ reachable_test_map_bc) 100 7 (by decide)
  have h0 : idx = 0 := by
    by_contra hne
    exact absurd (h3 0 (Nat.pos_of_ne_zero hne)) (by decide)
  subst h0
  exact ⟨h2, h4, h5, h7, (h8 2 (by decide)).1⟩

/-! ## Update of an absent key (C9) -/

/-- C9: in a map state whose `count` is at most the capacity, for a key that no
used slot holds, `map_update` without `create_if_absent` returns false and
leaves the map unchanged, and with `create_if_absent` it returns what `map_add`
returns (boolean and resulting map); in particular, when no slot is free, it
returns false and leaves the map unchanged. -/
theorem map_update_absent (m : map_t K V) (hc : m.count ≤ m.size) (key : K) (val : V)
    (habs : ∀ i, ¬ Holds m i key) :
    map_update m key val false = (false, m) ∧
      map_update m key val true = map_add m key val ∧
      ((∀ i, i < m.size → IS_ENTRY_FREE m i = false) →
        map_update m key val true = (false, m)) := by
  have hf : map_find m key = none := by
    rw [map_find_eq_none]
    intro j hj
    cases hfree : IS_ENTRY_FREE m j with
    | true => exact Or.inl rfl
    | false =>
      right
      cases hcmp : m.compare key (KEYS_ITER m j) with
      | false => rfl
      | true => exact absurd ⟨by omega, hfree, hcmp⟩ (habs j)
  have h1 := map_update_of_absent m key val false hf
  have h2 := map_update_of_absent m key val true hf
  simp only [Bool.false_eq_true, if_false] at h1
  simp only [if_true] at h2
  refine ⟨h1, h2, fun hfull => ?_⟩
  rw [h2]
  exact map_add_of_full m key val ((map_alloc_eq_none m).2 hfull)

/-- Witness of C9 on the full capacity-2 map holding `a` and `b`, with the
absent key `c`. -/
theorem map_update_absent_witness :
    small_map_ab.count ≤ small_map_ab.size ∧ (∀ i, ¬ Holds small_map_ab i 99) ∧
      map_update small_map_ab 99 5 false = (false, small_map_ab) ∧
      map_update small_map_ab 99 5 true = map_add small_map_ab 99 5 ∧
      map_update small_map_ab 99 5 true = (false, small_map_ab) := by
  have habs : ∀ i, ¬ Holds small_map_ab i 99 := by
    rintro i ⟨hi, _, hcmp⟩
    have hi2 : i < 2 := hi
    interval_cases i
    · exact absurd hcmp (by decide)
    · exact absurd hcmp (by decide)
  have h := map_update_absent small_map_ab (by decide) 99 5 habs
  have hfull : ∀ i, i < small_map_ab.size → IS_ENTRY_FREE small_map_ab i = false := by
    intro i hi
    have hi2 : i < 2 := hi
    interval_cases i
    · decide
    · decide
  exact ⟨by decide, habs, h.1, h.2.1, h.2.2 hfull⟩

/-! ## Update then lookup (C10) -/

/-- C10: in a map state whose regions have `size` entries, for a key that
`map_get` finds (at the slot `idx` reported by `map_find`), `map_update` with
either flag returns true, a following `map_get` returns true with exactly the
new value, and the map is unchanged except for the value of slot `idx`:
`count`, the keys, the usage flags, the header fields and the values of all
other slots are what they were. -/
theorem map_update_get_roundtrip (m : map_t K V) (hs : Storage m) (key : K) (val : V)
    (c : Bool) (hget : (map_get m key).isSome = true) :
    ∃ idx, map_find m key = some idx ∧ map_get m key = some (VALS_ITER m idx) ∧
      (map_update m key val c).1 = true ∧
      map_get (map_update m key val c).2 key = some val ∧
      VALS_ITER (map_update m key val c).2 idx = val ∧
      (∀ j, j ≠ idx → VALS_ITER (map_update m key val c).2 j = VALS_ITER m j) ∧
      (map_update m key val c).2.values.length = m.values.length ∧
      (map_update m key val c).2.count = m.count ∧
      (map_update m key val c).2.keys = m.keys ∧
      (map_update m key val c).2.usage = m.usage ∧
      (map_update m key val c).2.size = m.size ∧
      (map_update m key val c).2.key_size = m.key_size ∧
      (map_update m key val c).2.val_size = m.val_size ∧
      (map_update m key val c).2.compare = m.compare := by
  cases hf : map_find m key with
  | none => simp [map_get, hf] at hget
  | some idx =>
    obtain ⟨hk, hv, hu⟩ := hs
    have hspec := (map_find_eq_some m key idx).1 hf
    have hlt : idx < m.values.length := by
      have := lt_usage_length_of_used m idx hspec.2.1
      omega
    have hfind : map_find ({ m with values := m.values.set idx val } : map_t K V) key
        = some idx :=
      (map_find_eq_some _ key idx).2 hspec
    refine ⟨idx, rfl, by simp [map_get, hf], ?_⟩
    rw [map_update_of_found m key val c idx hf]
    refine ⟨rfl, ?_, ?_, ?_, by simp, rfl, rfl, rfl, rfl, rfl, rfl, rfl⟩
    · simp only [map_get, hfind, VALS_ITER, getD_set, hlt, and_self, if_true]
    · simp only [VALS_ITER, getD_set, hlt, and_self, if_true]
    · intro j hj
      have hne : ¬ (idx = j ∧ idx < m.values.length) := fun h => hj h.1.symm
      simp only [VALS_ITER, getD_set, hne, if_false]

/-- Witness of C10 on the state after `a`, `b`, `c` were added and `a` deleted:
the value of `b`, found at slot 1, is replaced by 9 and read back. -/
theorem map_update_get_roundtrip_witness :
    Storage test_map_bc ∧ (map_get test_map_bc 98).isSome = true ∧
      map_find test_map_bc 98 = some 1 ∧
      (map_update test_map_bc 98 9 false).1 = true ∧
      map_get (map_update test_map_bc 98 9 false).2 98 = some 9 ∧
      VALS_ITER (map_update test_map_bc 98 9 false).2 1 = 9 ∧
      (map_update test_map_bc 98 9 false).2.count = test_map_bc.count := by
  have hs : Storage test_map_bc := (valid_of_reachable _ reachable_test_map_bc).1
  obtain ⟨idx, h1, _, h3, h4, h5, _, _, h8, _⟩ :=
    map_update_get_roundtrip test_map_bc hs 98 9 false (by decide)
  have h0 : idx = 1 := by
    have h : map_find test_map_bc 98 = some 1 := by decide
    rw [h] at h1
    exact (Option.some.inj h1).symm
  subst h0
  exact ⟨hs, by decide, h1, h3, h4, h5, h8⟩

/-! ## Clear (C11) -/

theorem memset_getD (region : List Nat) (c n i : Nat) (h : i < n) :
    (memset region c n).getD i c = c := by
  unfold memset
  simp only [List.getD_eq_getElem?_getD]
  by_cases hi : i < region.length
  · rw [List.getElem?_append_left (by simp; omega)]
    simp [List.getElem?_replicate, h, hi]
  · rw [List.getElem?_eq_none (by simp; omega)]
    rfl

theorem map_find_of_count_zero (m : map_t K V) (key : K) (h : m.count = 0) :
    map_find m key = none := by
  rw [map_find_eq_none]
  intro j hj
  omega

/-- C11: after `map_erase`, in every map state, each of the `size` slots is
free, `map_len` is 0, `map_is_empty` is true, `map_get` returns false for every
key, and `map_size`, the key size, the value size and the comparison callback
(and the key and value regions) are what they were. -/
theorem map_erase_resets (m : map_t K V) :
    (∀ i, i < m.size → IS_ENTRY_FREE (map_erase m) i = true) ∧
      map_len (map_erase m) = 0 ∧
      map_is_empty (map_erase m) = true ∧
      (∀ key, map_get (map_erase m) key = none) ∧
      map_size (map_erase m) = map_size m ∧
      (map_erase m).key_size = m.key_size ∧
      (map_erase m).val_size = m.val_size ∧
      (map_erase m).compare = m.compare ∧
      (map_erase m).keys = m.keys ∧
      (map_erase m).values = m.values := by
  refine ⟨fun i hi => ?_, rfl, rfl, fun key => ?_, rfl, rfl, rfl, rfl, rfl, rfl⟩
  · rw [is_entry_free_eq_true]
    exact memset_getD m.usage 0 (m.size + USAGE_SINGLE_ENTRY_SIZE) i
      (by simp only [USAGE_SINGLE_ENTRY_SIZE]; omega)
  · simp only [map_get, map_find_of_count_zero (map_erase m) key rfl]

/-- Witness of C11 on `test_map` holding `a`, `b`, `c`: after `map_erase` slot
2 is free, the length is 0 and `c` is not found. -/
theorem map_erase_resets_witness :
    IS_ENTRY_FREE test_map_abc 2 = false ∧ map_get test_map_abc 99 = some 2 ∧
      IS_ENTRY_FREE (map_erase test_map_abc) 2 = true ∧
      map_len (map_erase test_map_abc) = 0 ∧
      map_get (map_erase test_map_abc) 99 = none ∧
      map_size (map_erase test_map_abc) = 20 :=
  ⟨by decide, by decide, (map_erase_resets test_map_abc).1 2 (by decide),
    (map_erase_resets test_map_abc).2.1, (map_erase_resets test_map_abc).2.2.2.1 99,
    (map_erase_resets test_map_abc).2.2.2.2.1⟩

/-! ## Delete of an absent key (C12) -/

/-- A key that no used slot among the `size` slots holds is not found, when
`count` is at most `size`. -/
theorem map_find_of_absent (m : map_t K V) (hc : m.count ≤ m.size) (key : K)
    (habs : ∀ i, ¬ Holds m i key) : map_find m key = none := by
  rw [map_find_eq_none]
  intro j hj
  cases hfree : IS_ENTRY_FREE m j with
  | true => exact Or.inl rfl
  | false =>
    right
    cases hcmp : m.compare key (KEYS_ITER m j) with
    | false => rfl
    | true => exact absurd ⟨by omega, hfree, hcmp⟩ (habs j)

/-- C12: in a map state whose `count` is at most the capacity, for a key that no
used slot holds, `map_delete` returns the map it was given (count, keys,
values and usage flags included), and so does a second `map_delete`. -/
theorem map_delete_absent (m : map_t K V) (hc : m.count ≤ m.size) (key : K)
    (habs : ∀ i, ¬ Holds m i key) :
    map_delete m key = m ∧ map_delete (map_delete m key) key = m := by
  have h := map_delete_of_absent m key (map_find_of_absent m hc key habs)
  exact ⟨h, by rw [h, h]⟩

/-- Witness of C12 on the capacity-2 map holding `a` and `b`, with the absent
key `c`. -/
theorem map_delete_absent_witness :
    small_map_ab.count ≤ small_map_ab.size ∧ (∀ i, ¬ Holds small_map_ab i 99) ∧
      map_delete small_map_ab 99 = small_map_ab ∧
      map_delete (map_delete small_map_ab 99) 99 = small_map_ab := by
  have habs : ∀ i, ¬ Holds small_map_ab i 99 := by
    rintro i ⟨hi, _, hcmp⟩
    have hi2 : i < 2 := hi
    interval_cases i
    · exact absurd hcmp (by decide)
    · exact absurd hcmp (by decide)
  have h := map_delete_absent small_map_ab (by decide) 99 habs
  exact ⟨by decide, habs, h.1, h.2⟩

/-! ## Atomic failure (C13) -/

/-- A failed `map_update` returns the map it was given. -/
theorem map_update_false (m : map_t K V) (key : K) (val : V) (c : Bool)
    (h : (map_update m key val c).1 = false) : map_update m key val c = (false, m) := by
  cases hf : map_find m key with
  | some idx => rw [map_update_of_found m key val c idx hf] at h; cases h
  | none =>
    rw [map_update_of_absent m key val c hf] at h ⊢
    cases c with
    | false => rfl
    | true => exact map_add_false m key val h

/-- C13: in every map state and for all arguments, a `map_add` that returns
false and a `map_update` that returns false return the map they were given
(count, keys, values, usage flags and header).  The function `map_get` has no
store through `map` in the source (it writes only the buffer `val` of the
caller), which is why it is a function from the map to the looked-up value
here: the map after `map_get` is the map before it. -/
theorem failed_call_leaves_map (m : map_t K V) (key : K) (val : V) (c : Bool) :
    ((map_add m key val).1 = false → (map_add m key val).2 = m) ∧
      ((map_update m key val c).1 = false → (map_update m key val c).2 = m) := by
  constructor
  · intro h
    rw [map_add_false m key val h]
  · intro h
    rw [map_update_false m key val c h]

/-- Witness of C13 on the full capacity-2 map holding `a` and `b`: `map_add` of
`c` and `map_update` of `c` with `create_if_absent` both fail. -/
theorem failed_call_leaves_map_witness :
    (map_add small_map_ab 99 2).1 = false ∧ (map_update small_map_ab 99 2 true).1 = false ∧
      (map_add small_map_ab 99 2).2 = small_map_ab ∧
      (map_update small_map_ab 99 2 true).2 = small_map_ab :=
  ⟨by decide, by decide,
    (failed_call_leaves_map small_map_ab 99 2 true).1 (by decide),
    (failed_call_leaves_map small_map_ab 99 2 true).2 (by decide)⟩

/-! ## Slot stability (C16) -/

/-- A successful or failed `map_add` leaves every used slot as it was. -/
theorem map_add_keeps_used_slot (m : map_t K V) (i : Nat) (hused : IS_ENTRY_FREE m i = false)
    (key : K) (val : V) :
    IS_ENTRY_FREE (map_add m key val).2 i = false ∧
      KEYS_ITER (map_add m key val).2 i = KEYS_ITER m i ∧
      VALS_ITER (map_add m key val).2 i = VALS_ITER m i := by
  cases hb : (map_add m key val).1 with
  | false => rw [map_add_false m key val hb]; exact ⟨hused, rfl, rfl⟩
  | true =>
    obtain ⟨idx, hf, ha⟩ := map_add_true m key val hb
    obtain ⟨_, hfree, _⟩ := (map_alloc_eq_some m idx).1 ha
    have hne : idx ≠ i := by
      intro h
      rw [h, hused] at hfree
      cases hfree
    have hn : ∀ n : Nat, ¬ (idx = i ∧ idx < n) := fun n h => hne h.1
    rw [map_add_of_alloc m key val idx hf ha]
    refine ⟨?_, ?_, ?_⟩
    · rw [← hused]
      simp only [IS_ENTRY_FREE, USAGE_ITER, getD_set, hn, if_false]
    · simp only [KEYS_ITER, getD_set, hn, if_false]
    · simp only [VALS_ITER, getD_set, hn, if_false]

/-- C16: for a used slot `i` of any map state: `map_add` leaves slot `i` used
with the same key and value; `map_update` leaves it used with the same key, and
its value differs afterwards only if the key of the update was found at slot
`i`; `map_delete` leaves it used unless it is the slot that `map_delete` found,
and `map_delete` changes neither the key region nor the value region nor the
header, and no usage flag other than the one of the slot it found. -/
theorem slot_stability (m : map_t K V) (i : Nat) (hused : IS_ENTRY_FREE m i = false) :
    (∀ key val,
        IS_ENTRY_FREE (map_add m key val).2 i = false ∧
        KEYS_ITER (map_add m key val).2 i = KEYS_ITER m i ∧
        VALS_ITER (map_add m key val).2 i = VALS_ITER m i) ∧
      (∀ key val c,
        IS_ENTRY_FREE (map_update m key val c).2 i = false ∧
        KEYS_ITER (map_update m key val c).2 i = KEYS_ITER m i ∧
        (VALS_ITER (map_update m key val c).2 i ≠ VALS_ITER m i → map_find m key = some i)) ∧
      (∀ key,
        (map_find m key ≠ some i → IS_ENTRY_FREE (map_delete m key) i = false) ∧
        KEYS_ITER (map_delete m key) i = KEYS_ITER m i ∧
        VALS_ITER (map_delete m key) i = VALS_ITER m i ∧
        (map_delete m key).keys = m.keys ∧
        (map_delete m key).values = m.values ∧
        (map_delete m key).usage.length = m.usage.length ∧
        (∀ j, map_find m key ≠ some j → USAGE_ITER (map_delete m key) j = USAGE_ITER m j) ∧
        (map_delete m key).size = m.size ∧
        (map_delete m key).key_size = m.key_size ∧
        (map_delete m key).val_size = m.val_size ∧
        (map_delete m key).compare = m.compare) := by
  refine ⟨fun key val => map_add_keeps_used_slot m i hused key val, fun key val c => ?_,
    fun key => ?_⟩
  · cases hf : map_find m key with
    | some idx =>
      rw [map_update_of_found m key val c idx hf]
      refine ⟨hused, rfl, fun hne => ?_⟩
      by_cases hi : idx = i
      · rw [hi]
      · exfalso
        apply hne
        have hn : ¬ (idx = i ∧ idx < m.values.length) := fun h => hi h.1
        simp only [VALS_ITER, getD_set, hn, if_false]
    | none =>
      rw [map_update_of_absent m key val c hf]
      cases c with
      | false => exact ⟨hused, rfl, fun hne => absurd rfl hne⟩
      | true =>
        obtain ⟨h1, h2, h3⟩ := map_add_keeps_used_slot m i hused key val
        exact ⟨h1, h2, fun hne => absurd h3 hne⟩
  · cases hf : map_find m key with
    | none =>
      rw [map_delete_of_absent m key hf]
      exact ⟨fun _ => hused, rfl, rfl, rfl, rfl, rfl, fun _ _ => rfl, rfl, rfl, rfl, rfl⟩
    | some idx =>
      rw [map_delete_of_found m key idx hf]
      refine ⟨fun hne => ?_, by simp only [KEYS_ITER], by simp only [VALS_ITER], rfl, rfl,
        List.length_set _ _ _, fun j hj => ?_, rfl, rfl, rfl, rfl⟩
      · have hi : idx ≠ i := fun h => hne (by rw [h])
        have hn : ¬ (idx = i ∧ idx < m.usage.length) := fun h => hi h.1
        rw [← hused]
        simp only [IS_ENTRY_FREE, USAGE_ITER, getD_set, hn, if_false]
      · have hi : idx ≠ j := fun h => hj (by rw [h])
        have hn : ¬ (idx = j ∧ idx < m.usage.length) := fun h => hi h.1
        simp only [USAGE_ITER, getD_set, hn, if_false]

/-- Witness of C16 on `test_map` holding `a`, `b`, `c`, at the used slot 1
(key `b`): `map_add` of `d`, `map_update` of `c` and `map_delete` of `a` leave
slot 1 used with key `b` and value 1. -/
theorem slot_stability_witness :
    IS_ENTRY_FREE test_map_abc 1 = false ∧
      KEYS_ITER (map_add test_map_abc 100 7).2 1 = KEYS_ITER test_map_abc 1 ∧
      VALS_ITER (map_add test_map_abc 100 7).2 1 = VALS_ITER test_map_abc 1 ∧
      IS_ENTRY_FREE (map_update test_map_abc 99 9 false).2 1 = false ∧
      IS_ENTRY_FREE (map_delete test_map_abc 97) 1 = false ∧
      (map_delete test_map_abc 97).keys = test_map_abc.keys ∧
      (map_delete test_map_abc 97).values = test_map_abc.values :=
  ⟨by decide,
    ((slot_stability test_map_abc 1 (by decide)).1 100 7).2.1,
    ((slot_stability test_map_abc 1 (by decide)).1 100 7).2.2,
    ((slot_stability test_map_abc 1 (by decide)).2.1 99 9 false).1,
    ((slot_stability test_map_abc 1 (by decide)).2.2 97).1 (by decide),
    ((slot_stability test_map_abc 1 (by decide)).2.2 97).2.2.2.1,
    ((slot_stability test_map_abc 1 (by decide)).2.2 97).2.2.2.2.1⟩

/-! ## The search window of `map_find` (C17) -/

/-- The result of `map_find` depends on the map only through `count`, the
callback, and the usage flags and keys of the slots below `count`. -/
theorem map_find_congr (m n : map_t K V) (key : K) (hc : n.count = m.count)
    (hcmp : n.compare = m.compare)
    (hslots : ∀ j, j < m.count →
      USAGE_ITER n j = USAGE_ITER m j ∧ KEYS_ITER n j = KEYS_ITER m j) :
    map_find n key = map_find m key := by
  have hfree : ∀ j, j < m.count → IS_ENTRY_FREE n j = IS_ENTRY_FREE m j := by
    intro j hj
    simp only [IS_ENTRY_FREE, (hslots j hj).1]
  cases hf : map_find m key with
  | none =>
    rw [map_find_eq_none] at hf ⊢
    intro j hj
    rw [hc] at hj
    rw [hfree j hj, hcmp, (hslots j hj).2]
    exact hf j hj
  | some idx =>
    rw [map_find_eq_some] at hf ⊢
    obtain ⟨h1, h2, h3, h4⟩ := hf
    refine ⟨by omega, ?_, ?_, fun j hj => ?_⟩
    · rw [hfree idx h1]; exact h2
    · rw [hcmp, (hslots idx h1).2]; exact h3
    · rw [hfree j (by omega), hcmp, (hslots j (by omega)).2]
      exact h4 j hj

/-- C17: in every map state `map_find` reports found exactly when some index
below `count` is a used slot whose key satisfies `compare(k, key_i)`; the
index it reports is the smallest such index; `map_get`, the duplicate check of
`map_add`, `map_update` and `map_delete` take the branch that `map_find`
dictates; and the result does not depend on slots at indices from `count`
on: a map that agrees on `count`, the callback and the slots below `count`
gives the same result. -/
theorem map_find_window (m : map_t K V) (key : K) :
    ((map_find m key).isSome = true ↔
        ∃ i, i < m.count ∧ IS_ENTRY_FREE m i = false ∧ m.compare key (KEYS_ITER m i) = true) ∧
      (∀ idx, map_find m key = some idx →
        idx < m.count ∧ IS_ENTRY_FREE m idx = false ∧
        m.compare key (KEYS_ITER m idx) = true ∧
        ∀ j, j < idx →
          ¬ (IS_ENTRY_FREE m j = false ∧ m.compare key (KEYS_ITER m j) = true)) ∧
      (map_get m key).isSome = (map_find m key).isSome ∧
      (∀ val, (map_find m key).isSome = true → map_add m key val = (false, m)) ∧
      (∀ val c, (map_update m key val c).1 = true → (map_find m key).isSome = false →
        c = true ∧ (map_add m key val).1 = true) ∧
      ((map_find m key).isSome = false → map_delete m key = m) ∧
      (∀ n : map_t K V, n.count = m.count → n.compare = m.compare →
        (∀ j, j < m.count →
          USAGE_ITER n j = USAGE_ITER m j ∧ KEYS_ITER n j = KEYS_ITER m j) →
        map_find n key = map_find m key) := by
  refine ⟨?_, ?_, ?_, ?_, ?_, ?_, fun n hc hcmp hs => map_find_congr m n key hc hcmp hs⟩
  · constructor
    · intro h
      cases hf : map_find m key with
      | none => rw [hf] at h; cases h
      | some idx =>
        obtain ⟨h1, h2, h3, _⟩ := (map_find_eq_some m key idx).1 hf
        exact ⟨idx, h1, h2, h3⟩
    · rintro ⟨i, h1, h2, h3⟩
      cases hf : map_find m key with
      | some idx => rfl
      | none =>
        rcases (map_find_eq_none m key).1 hf i h1 with h | h
        · rw [h2] at h; cases h
        · rw [h3] at h; cases h
  · intro idx hf
    obtain ⟨h1, h2, h3, h4⟩ := (map_find_eq_some m key idx).1 hf
    refine ⟨h1, h2, h3, fun j hj hboth => ?_⟩
    rcases h4 j hj with h | h
    · rw [hboth.1] at h; cases h
    · rw [hboth.2] at h; cases h
  · unfold map_get
    cases map_find m key <;> rfl
  · intro val h
    cases hf : map_find m key with
    | none => rw [hf] at h; cases h
    | some idx => exact map_add_of_found m key val idx hf
  · intro val c hu h
    cases hf : map_find m key with
    | some idx => rw [hf] at h; cases h
    | none =>
      rw [map_update_of_absent m key val c hf] at hu
      cases c with
      | false => cases hu
      | true => exact ⟨rfl, hu⟩
  · intro h
    cases hf : map_find m key with
    | some idx => rw [hf] at h; cases h
    | none => exact map_delete_of_absent m key hf

/-- Witness of C17 on `test_map` after `a`, `b`, `c` were added and `a` deleted
(`count` is 2): `b` is found at slot 1, and `c`, held by the used slot 2, is
not found. -/
theorem map_find_window_witness :
    test_map_bc.count = 2 ∧ map_find test_map_bc 98 = some 1 ∧
      (1 < test_map_bc.count ∧ IS_ENTRY_FREE test_map_bc 1 = false ∧
        test_map_bc.compare 98 (KEYS_ITER test_map_bc 1) = true) ∧
      Holds test_map_bc 2 99 ∧
      ¬ (∃ i, i < test_map_bc.count ∧ IS_ENTRY_FREE test_map_bc i = false ∧
        test_map_bc.compare 99 (KEYS_ITER test_map_bc i) = true) ∧
      map_delete test_map_bc 99 = test_map_bc := by
  have h98 := (map_find_window test_map_bc 98).2.1 1 (by decide)
  have h99 := map_find_window test_map_bc 99
  have hnone : (map_find test_map_bc 99).isSome = false := by decide
  refine ⟨by decide, by decide, ⟨h98.1, h98.2.1, h98.2.2.1⟩,
    ⟨by decide, by decide, by decide⟩, fun hex => ?_, h99.2.2.2.2.2.1 hnone⟩
  have := h99.1.2 hex
  rw [hnone] at this
  cases this

/-! ## Histories without `map_delete` (C18) -/

theorem getD_replicate_zero (n i : Nat) : (List.replicate n 0).getD i 0 = 0 := by
  simp only [List.getD_eq_getElem?_getD, List.getElem?_replicate]
  split <;> rfl

theorem reachable_of_no_delete (m : map_t K V) (h : ReachableNoDelete m) : Reachable m := by
  induction h with
  | empty m he => exact Reachable.empty m he
  | add m key val _ ih => exact Reachable.add m key val ih
  | update m key val c _ ih => exact Reachable.update m key val c ih
  | erase m _ ih => exact Reachable.erase m ih

theorem map_add_compare (m : map_t K V) (key : K) (val : V) :
    (map_add m key val).2.compare = m.compare := by
  cases hb : (map_add m key val).1 with
  | false => rw [map_add_false m key val hb]
  | true =>
    obtain ⟨idx, hf, ha⟩ := map_add_true m key val hb
    rw [map_add_of_alloc m key val idx hf ha]

theorem map_update_compare (m : map_t K V) (key : K) (val : V) (c : Bool) :
    (map_update m key val c).2.compare = m.compare := by
  cases hf : map_find m key with
  | some idx => rw [map_update_of_found m key val c idx hf]
  | none =>
    rw [map_update_of_absent m key val c hf]
    cases c with
    | false => rfl
    | true => exact map_add_compare m key val

/-- The step of `map_add` for the invariants of a history without deletion. -/
theorem packed_distinct_add (m : map_t K V) (key : K) (val : V) (hv : Valid m)
    (hp : Packed m)
    (hd : (∀ a b, m.compare a b = true → m.compare b a = true) → Distinct m) :
    Packed (map_add m key val).2 ∧
      ((∀ a b, (map_add m key val).2.compare a b = true →
          (map_add m key val).2.compare b a = true) → Distinct (map_add m key val).2) := by
  cases hb : (map_add m key val).1 with
  | false => rw [map_add_false m key val hb]; exact ⟨hp, hd⟩
  | true =>
    obtain ⟨idx, hf, ha⟩ := map_add_true m key val hb
    obtain ⟨hle, hlt, hmod⟩ := alloc_le_count m hv idx ha
    obtain ⟨hidx, hfree, _⟩ := (map_alloc_eq_some m idx).1 ha
    obtain ⟨⟨hk, _, hu⟩, _, _⟩ := hv
    have hnone := (map_find_eq_none m key).1 hf
    have hge : ¬ idx < m.count := by
      intro hlt2
      have := (hp idx).2 hlt2
      rw [hfree] at this
      cases this
    have hidc : idx = m.count := by omega
    subst hidc
    have hkl : m.count < m.keys.length := by omega
    have hkey : ∀ j, j < m.count → m.compare key (KEYS_ITER m j) = false := by
      intro j hj
      rcases hnone j hj with h | h
      · rw [(hp j).2 hj] at h; cases h
      · exact h
    rw [map_add_of_alloc m key val m.count hf ha]
    constructor
    · intro i
      show IS_ENTRY_FREE _ i = false ↔ i < (m.count + 1) % UINT_MOD
      have hwin : i < (m.count + 1) % UINT_MOD ↔ i < m.count + 1 := by rw [hmod]
      by_cases hi : m.count = i
      · have h1 : IS_ENTRY_FREE ({ m with
            keys := m.keys.set m.count key
            values := m.values.set m.count val
            usage := m.usage.set m.count MAP_ENTRY_USED
            count := (m.count + 1) % UINT_MOD } : map_t K V) i = false := by
          simp only [IS_ENTRY_FREE, USAGE_ITER, getD_set, hi.symm, hlt, and_self, if_true]
          rfl
        rw [h1, hwin]
        constructor
        · intro _; omega
        · intro _; rfl
      · have hn : ¬ (m.count = i ∧ m.count < m.usage.length) := fun h => hi h.1
        have h1 : IS_ENTRY_FREE ({ m with
            keys := m.keys.set m.count key
            values := m.values.set m.count val
            usage := m.usage.set m.count MAP_ENTRY_USED
            count := (m.count + 1) % UINT_MOD } : map_t K V) i = IS_ENTRY_FREE m i := by
          simp only [IS_ENTRY_FREE, USAGE_ITER, getD_set, hn, if_false]
        rw [h1, hp i, hwin]
        omega
    · intro hsymm i j hi hj hij
      have hi2 : i < (m.count + 1) % UINT_MOD := hi
      have hj2 : j < (m.count + 1) % UINT_MOD := hj
      rw [hmod] at hi2 hj2
      have hsymm2 : ∀ a b, m.compare a b = true → m.compare b a = true := hsymm
      have hread : ∀ x, KEYS_ITER ({ m with
            keys := m.keys.set m.count key
            values := m.values.set m.count val
            usage := m.usage.set m.count MAP_ENTRY_USED
            count := (m.count + 1) % UINT_MOD } : map_t K V) x
          = if m.count = x then key else KEYS_ITER m x := by
        intro x
        simp only [KEYS_ITER, getD_set, hkl, and_true]
      show m.compare _ _ = false
      rw [hread i, hread j]
      by_cases hic : m.count = i
      · have hjc : ¬ m.count = j := by omega
        rw [if_pos hic, if_neg hjc]
        exact hkey j (by omega)
      · rw [if_neg hic]
        by_cases hjc : m.count = j
        · rw [if_pos hjc]
          cases hcmp : m.compare (KEYS_ITER m i) key with
          | false => rfl
          | true =>
            have := hsymm2 _ _ hcmp
            rw [hkey i (by omega)] at this
            cases this
        · rw [if_neg hjc]
          exact hd hsymm2 i j (by omega) (by omega) hij

/-- In a history without `map_delete` the used slots are the slots below
`count`, and with a symmetric callback their keys are pairwise different. -/
theorem packed_distinct_of_no_delete (m : map_t K V) (h : ReachableNoDelete m) :
    Packed m ∧ ((∀ a b, m.compare a b = true → m.compare b a = true) → Distinct m) := by
  induction h with
  | empty m he =>
    obtain ⟨_, _, hc, hu⟩ := he
    constructor
    · intro i
      have hfree : IS_ENTRY_FREE m i = true := by
        rw [is_entry_free_eq_true, hu]
        exact getD_replicate_zero _ i
      rw [hfree, hc]
      simp
    · intro _ i j hi
      omega
  | add m key val hr ih =>
    exact packed_distinct_add m key val
      (valid_of_reachable m (reachable_of_no_delete m hr)) ih.1 ih.2
  | update m key val c hr ih =>
    cases hf : map_find m key with
    | some idx =>
      rw [map_update_of_found m key val c idx hf]
      exact ⟨fun i => ih.1 i, fun hs i j hi hj hij => ih.2 hs i j hi hj hij⟩
    | none =>
      rw [map_update_of_absent m key val c hf]
      cases c with
      | false => exact ih
      | true =>
        exact packed_distinct_add m key val
          (valid_of_reachable m (reachable_of_no_delete m hr)) ih.1 ih.2
  | erase m hr _ =>
    have hu := (valid_of_reachable m (reachable_of_no_delete m hr)).1.2.2
    have he := map_erase_usage m hu
    constructor
    · intro i
      have hfree : IS_ENTRY_FREE (map_erase m) i = true := by
        rw [is_entry_free_eq_true, he]
        exact getD_replicate_zero _ i
      rw [hfree]
      show (true = false) ↔ i < 0
      simp
    · intro _ i j hi
      have : i < 0 := hi
      omega

theorem reachable_no_delete_test_map_abc : ReachableNoDelete test_map_abc :=
  ReachableNoDelete.add _ 99 2 (ReachableNoDelete.add _ 98 1 (ReachableNoDelete.add _ 97 0
    (ReachableNoDelete.empty _ (empty_declared 1 4 20 compare_chars (by decide)))))

/-- C18: in every state reached from the empty map by `map_add`, `map_update`
and `map_erase` only, with a comparison callback that is an equivalence
relation: the used slots are exactly the indices `0 .. count - 1` (and `count`
is at most the capacity), two different used slots hold keys that are not
equal under the callback, so that no key is held by two used slots, and
`map_get(k)` returns true exactly when some used slot holds a key equal to
`k`. -/
theorem no_delete_history_safe (m : map_t K V) (hr : ReachableNoDelete m)
    (heq : CompareEquiv m) :
    m.count ≤ m.size ∧
      (∀ i, IS_ENTRY_FREE m i = false ↔ i < m.count) ∧
      (∀ i j, i < m.size → j < m.size → IS_ENTRY_FREE m i = false →
        IS_ENTRY_FREE m j = false → i ≠ j →
        m.compare (KEYS_ITER m i) (KEYS_ITER m j) = false) ∧
      (∀ key i j, Holds m i key → Holds m j key → i = j) ∧
      (∀ key, (map_get m key).isSome = true ↔ ∃ i, Holds m i key) := by
  obtain ⟨hp, hd⟩ := packed_distinct_of_no_delete m hr
  obtain ⟨⟨_, _, hu⟩, _, hc⟩ := valid_of_reachable m (reachable_of_no_delete m hr)
  have hle := used_count_le m
  have hcs : m.count ≤ m.size := by omega
  obtain ⟨_, hsymm, htrans⟩ := heq
  have hdist := hd hsymm
  refine ⟨hcs, hp, ?_, ?_, ?_⟩
  · intro i j _ _ hi hj hij
    exact hdist i j ((hp i).1 hi) ((hp j).1 hj) hij
  · rintro key i j ⟨_, hi, hci⟩ ⟨_, hj, hcj⟩
    by_contra hij
    have h1 := hdist i j ((hp i).1 hi) ((hp j).1 hj) hij
    have h2 := htrans _ _ _ (hsymm _ _ hci) hcj
    rw [h1] at h2
    cases h2
  · intro key
    constructor
    · intro h
      cases hf : map_find m key with
      | none => simp [map_get, hf] at h
      | some idx =>
        obtain ⟨h1, h2, h3, _⟩ := (map_find_eq_some m key idx).1 hf
        exact ⟨idx, by omega, h2, h3⟩
    · rintro ⟨i, _, hi, hci⟩
      cases hf : map_find m key with
      | some idx => simp [map_get, hf]
      | none =>
        rcases (map_find_eq_none m key).1 hf i ((hp i).1 hi) with h | h
        · rw [hi] at h; cases h
        · rw [hci] at h; cases h

/-- Witness of C18 on `test_map` after `map_add` of `a`, `b`, `c`: slot 2 is
used, slot 3 is not, and `c` is found. -/
theorem no_delete_history_safe_witness :
    ReachableNoDelete test_map_abc ∧ CompareEquiv test_map_abc ∧
      test_map_abc.count = 3 ∧
      (IS_ENTRY_FREE test_map_abc 2 = false ↔ 2 < test_map_abc.count) ∧
      (IS_ENTRY_FREE test_map_abc 3 = false ↔ 3 < test_map_abc.count) ∧
      test_map_abc.compare (KEYS_ITER test_map_abc 0) (KEYS_ITER test_map_abc 2) = false ∧
      (map_get test_map_abc 99).isSome = true :=
  ⟨reachable_no_delete_test_map_abc, compare_chars_equiv _ rfl, by decide,
    (no_delete_history_safe test_map_abc reachable_no_delete_test_map_abc
      (compare_chars_equiv _ rfl)).2.1 2,
    (no_delete_history_safe test_map_abc reachable_no_delete_test_map_abc
      (compare_chars_equiv _ rfl)).2.1 3,
    (no_delete_history_safe test_map_abc reachable_no_delete_test_map_abc
      (compare_chars_equiv _ rfl)).2.2.1 0 2 (by decide) (by decide) (by decide) (by decide)
      (by decide),
    ((no_delete_history_safe test_map_abc reachable_no_delete_test_map_abc
      (compare_chars_equiv _ rfl)).2.2.2.2 99).2 ⟨2, by decide, by decide, by decide⟩⟩

/-! ## The capacity-5 scenario (C14) -/

/-- The map after the five insertions of the scenario. -/
theorem add_five_declared (ks vs : Nat) (cmp : K → K → Bool) (k0 k1 k2 k3 k4 : K)
    (h10 : cmp k1 k0 = false) (h20 : cmp k2 k0 = false) (h21 : cmp k2 k1 = false)
    (h30 : cmp k3 k0 = false) (h31 : cmp k3 k1 = false) (h32 : cmp k3 k2 = false)
    (h40 : cmp k4 k0 = false) (h41 : cmp k4 k1 = false) (h42 : cmp k4 k2 = false)
    (h43 : cmp k4 k3 = false) :
    let m0 : map_t K Nat := DECLARE_STATIC_MAP ks vs 5 cmp
    let m1 := (map_add m0 k0 0).2
    let m2 := (map_add m1 k1 1).2
    let m3 := (map_add m2 k2 2).2
    let m4 := (map_add m3 k3 3).2
    (map_add m0 k0 0).1 = true ∧ (map_add m1 k1 1).1 = true ∧ (map_add m2 k2 2).1 = true ∧
      (map_add m3 k3 3).1 = true ∧ (map_add m4 k4 4).1 = true ∧
      add_five m0 k0 k1 k2 k3 k4 =
        { compare := cmp, key_size := ks, val_size := vs, count := 5, size := 5,
          keys := [k0, k1, k2, k3, k4], values := [0, 1, 2, 3, 4],
          usage := [1, 1, 1, 1, 1] } := by
  simp [add_five, DECLARE_STATIC_MAP, map_add, map_find, map_find_loop, map_alloc_new_entry,
    map_alloc_loop, IS_ENTRY_FREE, USAGE_ITER, KEYS_ITER, MAP_ENTRY_FREE, MAP_ENTRY_USED,
    UINT_MOD, List.replicate, h10, h20, h21, h30, h31, h32, h40, h41, h42, h43]

/-- C14: on an empty capacity-5 map, for five keys of which no later one
compares equal to an earlier one and a reflexive callback (as for string
equality on distinct strings): the five `map_add` with the values 0..4 return
true; `map_add` of a sixth key returns false and leaves the map as it is;
after `map_delete` of the fourth key `map_len` is 4 and slot 3 is free; a
following `map_add` of a key `kf` that is equal to none of the four keys still
present returns true and stores key and value in slot 3, `map_len` is 5; and a
further `map_add` of `kf` returns false, leaves the map as it is, and `map_len`
stays 5. -/
theorem scenario_capacity_5 (ks vs : Nat) (cmp : K → K → Bool) (k0 k1 k2 k3 k4 k5 kf : K)
    (vf vg : Nat) (hrefl : ∀ a, cmp a a = true)
    (hdist : List.Pairwise (fun a b => cmp b a = false) [k0, k1, k2, k3, k4])
    (hfresh : ∀ x ∈ [k0, k1, k2, k4], cmp kf x = false) :
    let m0 : map_t K Nat := DECLARE_STATIC_MAP ks vs 5 cmp
    let m1 := (map_add m0 k0 0).2
    let m2 := (map_add m1 k1 1).2
    let m3 := (map_add m2 k2 2).2
    let m4 := (map_add m3 k3 3).2
    let m5 := add_five m0 k0 k1 k2 k3 k4
    let m6 := map_delete (map_add m5 k5 5).2 k3
    let m7 := (map_add m6 kf vf).2
    (map_add m0 k0 0).1 = true ∧ (map_add m1 k1 1).1 = true ∧ (map_add m2 k2 2).1 = true ∧
      (map_add m3 k3 3).1 = true ∧ (map_add m4 k4 4).1 = true ∧
      map_add m5 k5 5 = (false, m5) ∧
      map_len m6 = 4 ∧ IS_ENTRY_FREE m6 3 = true ∧
      (map_add m6 kf vf).1 = true ∧
      KEYS_ITER m7 3 = kf ∧ VALS_ITER m7 3 = vf ∧ IS_ENTRY_FREE m7 3 = false ∧
      map_len m7 = 5 ∧
      map_add m7 kf vg = (false, m7) ∧ map_len (map_add m7 kf vg).2 = 5 := by
  simp only [List.pairwise_cons, List.mem_cons, List.mem_singleton, forall_eq_or_imp,
    forall_eq, List.not_mem_nil, false_implies, implies_true, List.Pairwise.nil,
    and_true] at hdist hfresh
  obtain ⟨⟨h10, h20, h30, h40⟩, ⟨h21, h31, h41⟩, ⟨h32, h42⟩, h43⟩ := hdist
  obtain ⟨hf0, hf1, hf2, hf4⟩ := hfresh
  have h5 := add_five_declared ks vs cmp k0 k1 k2 k3 k4 h10 h20 h21 h30 h31 h32 h40 h41 h42 h43
  intro m0 m1 m2 m3 m4 m5 m6 m7
  obtain ⟨a1, a2, a3, a4, a5, hm5⟩ := h5
  have hm5b : m5 =
      { compare := cmp, key_size := ks, val_size := vs, count := 5, size := 5,
        keys := [k0, k1, k2, k3, k4], values := [0, 1, 2, 3, 4],
        usage := [1, 1, 1, 1, 1] } := hm5
  have h6 : map_add m5 k5 5 = (false, m5) := by
    apply map_add_of_full
    rw [hm5b]
    simp [map_alloc_new_entry, map_alloc_loop, IS_ENTRY_FREE, USAGE_ITER, MAP_ENTRY_FREE]
  have hm6 : m6 =
      { compare := cmp, key_size := ks, val_size := vs, count := 4, size := 5,
        keys := [k0, k1, k2, k3, k4], values := [0, 1, 2, 3, 4],
        usage := [1, 1, 1, 0, 1] } := by
    have hfind : map_find (map_t.mk cmp ks vs 5 5 [k0, k1, k2, k3, k4] [0, 1, 2, 3, 4]
        [1, 1, 1, 1, 1] : map_t K Nat) k3 = some 3 := by
      simp [map_find, map_find_loop, IS_ENTRY_FREE, USAGE_ITER, KEYS_ITER, MAP_ENTRY_FREE,
        h30, h31, h32, hrefl]
    have hdec : (5 + UINT_MOD - 1) % UINT_MOD = 4 := by decide
    show map_delete (map_add m5 k5 5).2 k3 = _
    rw [h6, hm5b, map_delete_of_found _ _ 3 hfind]
    show map_t.mk cmp ks vs ((5 + UINT_MOD - 1) % UINT_MOD) 5 [k0, k1, k2, k3, k4]
      [0, 1, 2, 3, 4] ([1, 1, 1, 1, 1].set 3 MAP_ENTRY_FREE) = _
    rw [hdec]
    rfl
  have h7 : map_add m6 kf vf = (true,
      { compare := cmp, key_size := ks, val_size := vs, count := 5, size := 5,
        keys := [k0, k1, k2, kf, k4], values := [0, 1, 2, vf, 4],
        usage := [1, 1, 1, 1, 1] }) := by
    rw [hm6]
    simp [map_add, map_find, map_find_loop, map_alloc_new_entry, map_alloc_loop,
      IS_ENTRY_FREE, USAGE_ITER, KEYS_ITER, MAP_ENTRY_FREE, MAP_ENTRY_USED, UINT_MOD,
      hf0, hf1, hf2]
  have hm7 : m7 =
      { compare := cmp, key_size := ks, val_size := vs, count := 5, size := 5,
        keys := [k0, k1, k2, kf, k4], values := [0, 1, 2, vf, 4],
        usage := [1, 1, 1, 1, 1] } := by
    show (map_add m6 kf vf).2 = _
    rw [h7]
  have h8 : map_add m7 kf vg = (false, m7) := by
    apply map_add_of_found _ _ _ 3
    rw [hm7]
    simp [map_find, map_find_loop, IS_ENTRY_FREE, USAGE_ITER, KEYS_ITER, MAP_ENTRY_FREE,
      hf0, hf1, hf2, hrefl]
  refine ⟨a1, a2, a3, a4, a5, h6, ?_, ?_, ?_, ?_, ?_, ?_, ?_, h8, ?_⟩
  · rw [hm6]; rfl
  · rw [hm6]; rfl
  · rw [h7]
  · rw [hm7]; rfl
  · rw [hm7]; rfl
  · rw [hm7]; rfl
  · rw [hm7]; rfl
  · rw [h8, hm7]; rfl

/-- Witness of C14 with the keys `str1` .. `str5` of `example.c` under
`compare_strings`, the sixth key `str6`, and the key `str4` added again with
the value 20 after its deletion, as `main` does. -/
theorem scenario_capacity_5_witness :
    (map_add (add_five (DECLARE_STATIC_MAP 8 4 5 compare_strings)
        (str_key 1) (str_key 2) (str_key 3) (str_key 4) (str_key 5)) (str_key 6) 5).1 = false ∧
      map_len (map_delete (add_five (DECLARE_STATIC_MAP 8 4 5 compare_strings)
        (str_key 1) (str_key 2) (str_key 3) (str_key 4) (str_key 5)) (str_key 4)) = 4 ∧
      KEYS_ITER (map_add (map_delete (map_add (add_five
          (DECLARE_STATIC_MAP 8 4 5 compare_strings)
          (str_key 1) (str_key 2) (str_key 3) (str_key 4) (str_key 5)) (str_key 6) 5).2
        (str_key 4)) (str_key 4) 20).2 3 = str_key 4 ∧
      VALS_ITER (map_add (map_delete (map_add (add_five
          (DECLARE_STATIC_MAP 8 4 5 compare_strings)
          (str_key 1) (str_key 2) (str_key 3) (str_key 4) (str_key 5)) (str_key 6) 5).2
        (str_key 4)) (str_key 4) 20).2 3 = 20 := by
  have h := scenario_capacity_5 8 4 compare_strings (str_key 1) (str_key 2) (str_key 3)
    (str_key 4) (str_key 5) (str_key 6) (str_key 4) 20 20
    (fun a => by simp [compare_strings]) (by decide) (by decide)
  exact ⟨by decide, by decide, h.2.2.2.2.2.2.2.2.2.1, h.2.2.2.2.2.2.2.2.2.2.1⟩

/-! ## Text output (C15) -/

set_option maxRecDepth 100000 in
theorem fmt_02x_eq_spec : ∀ b, b < 256 → fmt_02x b = spec_hex_byte b := by decide

theorem hexdump_str_loop_eq (bytes : List Nat) (hb : ∀ b ∈ bytes, b < 256) (n i : Nat)
    (out : String) (h : i + n ≤ bytes.length) :
    hexdump_str_loop bytes n i out = out ++ spec_hex ((bytes.drop i).take n) := by
  induction n generalizing i out with
  | zero => simp [hexdump_str_loop, spec_hex]
  | succ n ih =>
    have hi : i < bytes.length := by omega
    have hget : bytes.getD i 0 = bytes[i] := by
      simp [List.getD_eq_getElem?_getD, List.getElem?_eq_getElem hi]
    rw [hexdump_str_loop, ih (i + 1) _ (by omega), List.drop_eq_getElem_cons hi,
      List.take_succ_cons, spec_hex, hget,
      fmt_02x_eq_spec _ (hb _ (List.getElem_mem hi)), String.append_assoc]

theorem hexdump_str_eq (bytes : List Nat) (hb : ∀ b ∈ bytes, b < 256) (n : Nat)
    (out : String) (h : n ≤ bytes.length) :
    hexdump_str bytes n out = out ++ spec_hex (bytes.take n) := by
  rw [hexdump_str, hexdump_str_loop_eq bytes hb n 0 out (by omega), List.drop_zero]

theorem join_counted_eq_spec_join (c : Nat) (es : List String) (a : Nat)
    (h : es = [] ∨ a + es.length = c + 1) : join_counted c a es = spec_join ", " es := by
  induction es generalizing a with
  | nil => rfl
  | cons e es ih =>
    have hlen : a + (es.length + 1) = c + 1 := by
      rcases h with h | h
      · cases h
      · simpa using h
    cases es with
    | nil =>
      have hac : (a == c) = true := by
        simp only [List.length_nil] at hlen
        simp only [beq_iff_eq]
        omega
      simp [join_counted, spec_join, hac]
    | cons e2 rest =>
      have hac : (a == c) = false := by
        simp only [List.length_cons] at hlen
        simp only [beq_eq_false_iff_ne, ne_eq]
        omega
      rw [join_counted, ih (a + 1) (Or.inr (by simp only [List.length_cons] at hlen ⊢; omega))]
      simp [spec_join, hac]
theorem length_filter_range_getD (l : List Nat) :
    ((List.range l.length).filter (fun i => l.getD i 0 != 0)).length
      = l.countP (fun u => u != 0) := by
  have hmap : (List.range l.length).map (fun i => l.getD i 0) = l := by
    apply List.ext_getElem
    · simp
    · intro i h1 h2
      simp [List.getD_eq_getElem?_getD, List.getElem?_eq_getElem h2]
  have hcount : l.countP (fun u => u != 0)
      = ((List.range l.length).map (fun i => l.getD i 0)).countP (fun u => u != 0) := by
    rw [hmap]
  rw [hcount, List.countP_map, List.countP_eq_length_filter]
  rfl

/-- The number of used slots listed for the text is `used_count`. -/
theorem spec_used_slots_length (m : map_t K V) (hu : m.usage.length = m.size) :
    (spec_used_slots m).length = used_count m := by
  show (spec_used_slots m).length = m.usage.countP (fun u => u != 0)
  rw [← length_filter_range_getD, hu]
  rfl

/-- The text appended by the loop of `map_to_string`. -/
theorem map_to_string_loop_eq (kb : K → List Nat) (vb : V → List Nat) (m : map_t K V)
    (hkl : ∀ k, (kb k).length = m.key_size) (hkb : ∀ k, ∀ b ∈ kb k, b < 256)
    (hvl : ∀ v, (vb v).length = m.val_size) (hvb : ∀ v, ∀ b ∈ vb v, b < 256)
    (n i a : Nat) (str : String) :
    map_to_string_loop kb vb m n i a str =
      str ++ join_counted ((m.count + UINT_MOD - 1) % UINT_MOD) a
        (((List.range' i n).filter (fun j => !IS_ENTRY_FREE m j)).map
          (spec_entry kb vb m)) := by
  induction n generalizing i a str with
  | zero => simp [map_to_string_loop, join_counted]
  | succ n ih =>
    rw [map_to_string_loop, List.range'_succ]
    cases hfree : IS_ENTRY_FREE m i with
    | true =>
      rw [if_pos rfl, ih, List.filter_cons_of_neg (by simp [hfree])]
    | false =>
      have hquote : "\", " = "\"" ++ ", " := by decide
      rw [if_neg (by simp), List.filter_cons_of_pos (by simp [hfree]), List.map_cons,
        join_counted]
      simp only []
      rw [ih, hexdump_str_eq _ (hvb _) _ _ (by rw [hvl]),
        hexdump_str_eq _ (hkb _) _ _ (by rw [hkl]), spec_entry]
      cases hlast : a == (m.count + UINT_MOD - 1) % UINT_MOD with
      | true => simp [String.append_assoc]
      | false => simp [String.append_assoc, hquote]

/-- The loop of `map_to_string` writes nothing when every slot is free. -/
theorem map_to_string_loop_all_free (kb : K → List Nat) (vb : V → List Nat) (m : map_t K V)
    (hfree : ∀ i, IS_ENTRY_FREE m i = true) (n i a : Nat) (str : String) :
    map_to_string_loop kb vb m n i a str = str := by
  induction n generalizing i a str with
  | zero => rfl
  | succ n ih => rw [map_to_string_loop, if_pos (hfree i), ih]

/-- C15: for every map state that satisfies the data-model invariants (every
reachable state does), with keys and values whose object representations are
`key_size` and `val_size` bytes, `map_to_string` writes exactly the text
`<map size(C) len(N) items(E)>`, `E` in braces, where `C` is the capacity and
`N` the count in decimal and `E` lists the used slots in ascending index
order, each as `"<key_hex>" : "<value_hex>"` with two lowercase hexadecimal
digits per byte in storage order, joined by a comma and a blank with nothing
after the last entry; and an empty map of capacity 10 gives
`<map size(10) len(0) items()>` with an empty pair of braces. -/
theorem map_to_string_format (kb : K → List Nat) (vb : V → List Nat) :
    (∀ m : map_t K V, Valid m →
        (∀ k, (kb k).length = m.key_size) → (∀ k, ∀ b ∈ kb k, b < 256) →
        (∀ v, (vb v).length = m.val_size) → (∀ v, ∀ b ∈ vb v, b < 256) →
        map_to_string kb vb m = spec_to_text kb vb m) ∧
      (∀ (ks vs : Nat) (cmp : K → K → Bool),
        map_to_string kb vb (DECLARE_STATIC_MAP ks vs 10 cmp : map_t K V)
          = "<map size(10) len(0) items(\x7b\x7d)>") := by
  constructor
  · intro m hvalid hkl hkb hvl hvb
    obtain ⟨⟨_, _, hu⟩, hsz, hc⟩ := hvalid
    have hlen := spec_used_slots_length m hu
    have hle := used_count_le m
    have hjoin : join_counted ((m.count + UINT_MOD - 1) % UINT_MOD) 0
          ((spec_used_slots m).map (spec_entry kb vb m))
        = spec_join ", " ((spec_used_slots m).map (spec_entry kb vb m)) := by
      apply join_counted_eq_spec_join
      by_cases h0 : m.count = 0
      · left
        have : (spec_used_slots m).length = 0 := by omega
        rw [List.length_eq_zero] at this
        rw [this]
        rfl
      · right
        have h1 : m.count + UINT_MOD - 1 = (m.count - 1) + UINT_MOD := by omega
        rw [h1, Nat.add_mod_right, Nat.mod_eq_of_lt (by omega), List.length_map]
        omega
    rw [map_to_string, spec_to_text]
    rw [map_to_string_loop_eq kb vb m hkl hkb hvl hvb, ← List.range_eq_range']
    show _ ++ join_counted _ 0 ((spec_used_slots m).map (spec_entry kb vb m)) ++ _ = _
    rw [hjoin]
    rfl
  · intro ks vs cmp
    have hfree : ∀ i, IS_ENTRY_FREE (DECLARE_STATIC_MAP ks vs 10 cmp : map_t K V) i = true := by
      intro i
      rw [is_entry_free_eq_true]
      exact getD_replicate_zero 10 i
    rw [map_to_string, map_to_string_loop_all_free kb vb _ hfree]
    show "<map size(" ++ fmt_u 10 ++ ") len(" ++ fmt_u 0 ++ ") items(\x7b" ++ "\x7d)>" = _
    decide

/-- Witness of C15 on `test_map` after `a`, `b`, `c` were added with the values
0, 1, 2 and `a` was deleted: the entries of `b` (62) and `c` (63) are listed. -/
theorem map_to_string_format_witness :
    Reachable test_map_bc ∧
      map_to_string char_bytes unsigned_bytes test_map_bc
        = "<map size(20) len(2) items(\x7b\"62\" : \"01000000\", \"63\" : \"02000000\"\x7d)>" :=
  ⟨reachable_test_map_bc,
    ((map_to_string_format char_bytes unsigned_bytes).1 test_map_bc
      (valid_of_reachable _ reachable_test_map_bc)
      (fun _ => rfl)
      (fun k b hb => by
        simp only [char_bytes, List.mem_singleton] at hb
        omega)
      (fun _ => rfl)
      (fun v b hb => by
        simp only [unsigned_bytes, List.mem_cons, List.mem_singleton, List.not_mem_nil,
          or_false] at hb
        omega)).trans (by decide)⟩

end CMap
